import Mathlib

/-!
# Verification of the achew audiobook-chapter pipeline

Shallow embedding of the chapter-processing backend (Python sources under
`src/backend/app`).  Python floats are modelled as exact rationals (`ℚ`),
Python lists as Lean lists, fallible code as `Option`/`Except`.  Each
definition mirrors one Python function and is named after it.
-/

namespace Achew

/-! ## Python primitives -/

/-- Python `round()` on a real value: round half to even, as used by
`int(round(x))` in `_build_ffmetadata` (src/backend/app/services/local_chapter_service.py). -/
def pyRound (q : ℚ) : ℤ :=
  if q - ⌊q⌋ < 1/2 then ⌊q⌋
  else if 1/2 < q - ⌊q⌋ then ⌊q⌋ + 1
  else if Even ⌊q⌋ then ⌊q⌋ else ⌊q⌋ + 1

theorem pyRound_ge_floor (q : ℚ) : ⌊q⌋ ≤ pyRound q := by
  unfold pyRound
  split_ifs <;> omega

theorem pyRound_le_floor_add_one (q : ℚ) : pyRound q ≤ ⌊q⌋ + 1 := by
  unfold pyRound
  split_ifs <;> omega

theorem pyRound_mono {a b : ℚ} (h : a ≤ b) : pyRound a ≤ pyRound b := by
  rcases lt_or_eq_of_le (Int.floor_le_floor h) with hf | hf
  · calc pyRound a ≤ ⌊a⌋ + 1 := pyRound_le_floor_add_one a
      _ ≤ ⌊b⌋ := by omega
      _ ≤ pyRound b := pyRound_ge_floor b
  · unfold pyRound
    rw [hf]
    have hr : a - (⌊b⌋ : ℚ) ≤ b - (⌊b⌋ : ℚ) := by
      have := hf ▸ (Int.floor_le_floor h)
      linarith
    split_ifs <;> first | omega | (exfalso; linarith)

theorem pyRound_intCast (n : ℤ) : pyRound (n : ℚ) = n := by
  unfold pyRound
  rw [Int.floor_intCast]
  norm_num

/-- Characters removed by Python `str.strip()` (whitespace). -/
def pyIsSpace (c : Char) : Bool :=
  c = ' ' || c = '\t' || c = '\n' || c = '\r' || c = '\x0b' || c = '\x0c'

/-- Python `str.strip()`. -/
def pyStrip (s : String) : String :=
  ⟨((s.data.dropWhile pyIsSpace).reverse.dropWhile pyIsSpace).reverse⟩

/-- Python `title.replace("\n", " ")` (single-character pattern). -/
def replaceNewlines (s : String) : String :=
  ⟨s.data.map (fun c => if c = '\n' then ' ' else c)⟩

/-! ## LocalChapterService._build_ffmetadata
(src/backend/app/services/local_chapter_service.py, lines 82-109) -/

/-- `safe_title = (title or "").replace("\n", " ").strip()`. -/
def sanitizeTitle (s : String) : String :=
  pyStrip (replaceNewlines s)

/-- Ordering used by `sorted(chapters, key=lambda c: c[0])` (stable sort by start). -/
def byStart (a b : ℚ × String) : Prop := a.1 ≤ b.1

instance : DecidableRel byStart := fun a b => inferInstanceAs (Decidable (a.1 ≤ b.1))

instance : IsTotal (ℚ × String) byStart := ⟨fun a b => le_total a.1 b.1⟩

instance : IsTrans (ℚ × String) byStart := ⟨fun _ _ _ => le_trans⟩

/-- One `[CHAPTER]` block of the ffmetadata document: `TIMEBASE=1/1000`,
integer `START`/`END` in milliseconds, sanitized `title=` line. -/
structure FfChapterBlock where
  startMs : ℤ
  endMs : ℤ
  title : String
  deriving DecidableEq, Repr

/-- The block written for one chapter:
`start_ms = max(0, int(round(start * 1000)))`,
`end_ms = max(start_ms, int(round(end * 1000)))`. -/
def ffChapterBlock (start «end» : ℚ) (title : String) : FfChapterBlock :=
  { startMs := max 0 (pyRound (start * 1000))
    endMs := max (max 0 (pyRound (start * 1000))) (pyRound («end» * 1000))
    title := sanitizeTitle title }

/-- The loop body of `_build_ffmetadata`: the end of chapter `i` is the start of
chapter `i+1`, the end of the last chapter is `duration`. -/
def ffBlocksAux (duration : ℚ) : List (ℚ × String) → List FfChapterBlock
  | [] => []
  | [(s, t)] => [ffChapterBlock s duration t]
  | (s, t) :: next :: rest => ffChapterBlock s next.1 t :: ffBlocksAux duration (next :: rest)

/-- `if ordered[0][0] > 0: ordered[0] = (0.0, first_title)`. -/
def normalizeFirst : List (ℚ × String) → List (ℚ × String)
  | [] => []
  | (s, t) :: rest => if 0 < s then (0, t) :: rest else (s, t) :: rest

/-- `LocalChapterService._build_ffmetadata`, at the level of chapter blocks.
Returns `none` for an empty chapter list (`raise ValueError`). -/
def buildFfmetadata (chapters : List (ℚ × String)) (duration : ℚ) :
    Option (List FfChapterBlock) :=
  if chapters.isEmpty then none
  else some (ffBlocksAux duration (normalizeFirst (List.insertionSort byStart chapters)))

/-- Rendering of the blocks into the metadata text (`";FFMETADATA1"` header then
one five-line block per chapter), as returned by `_build_ffmetadata`. -/
def renderFfmetadata (blocks : List FfChapterBlock) : String :=
  String.intercalate "\n"
    (";FFMETADATA1" ::
      blocks.flatMap (fun b =>
        ["[CHAPTER]", "TIMEBASE=1/1000", "START=" ++ toString b.startMs,
         "END=" ++ toString b.endMs, "title=" ++ b.title])) ++ "\n"

theorem ffBlocksAux_length (duration : ℚ) (l : List (ℚ × String)) :
    (ffBlocksAux duration l).length = l.length := by
  induction l with
  | nil => rfl
  | cons hd tl ih =>
    cases tl with
    | nil => rfl
    | cons next rest => simpa [ffBlocksAux] using ih

theorem normalizeFirst_length (l : List (ℚ × String)) :
    (normalizeFirst l).length = l.length := by
  cases l with
  | nil => rfl
  | cons hd tl => cases hd with | mk s t => simp only [normalizeFirst]; split <;> rfl

theorem normalizeFirst_map_snd (l : List (ℚ × String)) :
    (normalizeFirst l).map Prod.snd = l.map Prod.snd := by
  cases l with
  | nil => rfl
  | cons hd tl => cases hd with | mk s t => simp only [normalizeFirst]; split <;> rfl

theorem normalizeFirst_sorted {l : List (ℚ × String)} (h : l.Sorted byStart) :
    (normalizeFirst l).Sorted byStart := by
  cases l with
  | nil => exact h
  | cons hd tl =>
    cases hd with | mk s t =>
    simp only [normalizeFirst]
    split
    · rename_i hs
      rw [List.sorted_cons] at h ⊢
      refine ⟨fun b hb => ?_, h.2⟩
      have := h.1 b hb
      simp only [byStart] at this ⊢
      linarith
    · exact h

theorem ffBlocksAux_chain {duration : ℚ} {l : List (ℚ × String)}
    (h : l.Sorted byStart) :
    List.Chain' (fun b1 b2 => b1.endMs = b2.startMs) (ffBlocksAux duration l) := by
  induction l with
  | nil => simp [ffBlocksAux]
  | cons hd tl ih =>
    cases hd with | mk s t =>
    cases tl with
    | nil => simp [ffBlocksAux]
    | cons next rest =>
      rw [List.sorted_cons] at h
      have hle : s ≤ next.1 := h.1 next (by simp)
      have htail := ih h.2
      have hkey : (ffChapterBlock s next.1 t).endMs = max 0 (pyRound (next.1 * 1000)) := by
        show max (max 0 (pyRound (s * 1000))) (pyRound (next.1 * 1000)) = _
        have hr : pyRound (s * 1000) ≤ pyRound (next.1 * 1000) :=
          pyRound_mono (by nlinarith)
        rcases le_total (pyRound (s * 1000)) 0 with h0 | h0
        · rw [max_eq_left h0]
        · rw [max_eq_right h0, max_eq_right hr, eq_comm,
            max_eq_right (le_trans h0 hr)]
      rcases next with ⟨ns, nt⟩
      cases rest with
      | nil =>
        simp only [ffBlocksAux]
        exact List.chain'_cons.mpr ⟨hkey, by simp⟩
      | cons r rs =>
        simp only [ffBlocksAux] at htail ⊢
        exact List.chain'_cons.mpr ⟨hkey, htail⟩

theorem pyRound_nonpos {q : ℚ} (h : q ≤ 0) : pyRound q ≤ 0 := by
  have hf : ⌊q⌋ ≤ 0 := by
    have := Int.floor_le_floor h
    simpa using this
  unfold pyRound
  split_ifs with h1 h2 h3
  · exact hf
  · have hq : (⌊q⌋ : ℚ) < -1/2 := by linarith
    have : (⌊q⌋ : ℚ) < 0 := by linarith
    have : ⌊q⌋ < 0 := by exact_mod_cast this
    omega
  · exact hf
  · have hq : (⌊q⌋ : ℚ) ≤ -1/2 := by
      have := le_of_not_lt h1
      linarith
    have : (⌊q⌋ : ℚ) < 0 := by linarith
    have : ⌊q⌋ < 0 := by exact_mod_cast this
    omega

theorem ffBlocksAux_head_start (duration s : ℚ) (t : String)
    (rest : List (ℚ × String)) (hs : s ≤ 0) :
    ∃ b bs, ffBlocksAux duration ((s, t) :: rest) = b :: bs ∧ b.startMs = 0 := by
  have hround : pyRound (s * 1000) ≤ 0 := pyRound_nonpos (by nlinarith)
  cases rest with
  | nil =>
    exact ⟨_, _, rfl, by simp [ffChapterBlock, max_eq_left hround]⟩
  | cons next rs =>
    exact ⟨_, _, rfl, by simp [ffChapterBlock, max_eq_left hround]⟩

theorem ffBlocksAux_last (duration : ℚ) (l : List (ℚ × String)) (h : l ≠ []) :
    ∃ s t, (ffBlocksAux duration l).getLast? = some (ffChapterBlock s duration t) := by
  induction l with
  | nil => exact absurd rfl h
  | cons hd tl ih =>
    cases hd with | mk s t =>
    cases tl with
    | nil => exact ⟨s, t, rfl⟩
    | cons next rest =>
      obtain ⟨s', t', h'⟩ := ih (by simp)
      refine ⟨s', t', ?_⟩
      rw [ffBlocksAux, List.getLast?_cons, h']
      rcases hnil : ffBlocksAux duration (next :: rest) with _ | _
      · rw [hnil] at h'; simp at h'
      · rw [hnil] at h'; simp [h']

theorem ffBlocksAux_map_title (duration : ℚ) (l : List (ℚ × String)) :
    (ffBlocksAux duration l).map FfChapterBlock.title =
      l.map (fun c => sanitizeTitle c.2) := by
  induction l with
  | nil => rfl
  | cons hd tl ih =>
    cases hd with | mk s t =>
    cases tl with
    | nil => rfl
    | cons next rest => simpa [ffBlocksAux, ffChapterBlock] using ih

theorem normalizeFirst_head_nonpos {l : List (ℚ × String)} (h : l ≠ []) :
    ∃ s t rest, normalizeFirst l = (s, t) :: rest ∧ s ≤ 0 := by
  cases l with
  | nil => exact absurd rfl h
  | cons hd tl =>
    cases hd with | mk s t =>
    simp only [normalizeFirst]
    split
    · exact ⟨0, t, tl, rfl, le_refl 0⟩
    · rename_i hs
      exact ⟨s, t, tl, rfl, le_of_not_lt hs⟩

/-- C2 (amended).  For every non-empty chapter list and every duration, the
chapter metadata blocks built by `_build_ffmetadata` sort chapters by start,
normalize the first chapter's start to 0, and emit one block per chapter with
integer START/END milliseconds where END of chapter `i` equals START of chapter
`i+1`; the END of the last chapter is the duration in milliseconds clamped
below by that chapter's START (`max START_last (round(duration*1000))`), and
every title has newlines replaced by spaces and is trimmed. -/
theorem buildFfmetadata_blocks_correct (chapters : List (ℚ × String)) (duration : ℚ)
    (h : chapters ≠ []) :
    ∃ blocks, buildFfmetadata chapters duration = some blocks ∧
      blocks.length = chapters.length ∧
      List.Chain' (fun b1 b2 => b1.endMs = b2.startMs) blocks ∧
      (∃ b bs, blocks = b :: bs ∧ b.startMs = 0) ∧
      (∃ bl, blocks.getLast? = some bl ∧
        bl.endMs = max bl.startMs (pyRound (duration * 1000))) ∧
      blocks.map FfChapterBlock.title =
        (List.insertionSort byStart chapters).map (fun c => sanitizeTitle c.2) := by
  have hne : ¬ chapters.isEmpty := by simpa [List.isEmpty_iff] using h
  have hsortedne : List.insertionSort byStart chapters ≠ [] := by
    intro hc
    have := List.length_insertionSort byStart chapters
    rw [hc] at this
    exact h (List.length_eq_zero.mp this.symm)
  obtain ⟨s0, t0, rest0, hnf, hs0⟩ := normalizeFirst_head_nonpos hsortedne
  refine ⟨ffBlocksAux duration (normalizeFirst (List.insertionSort byStart chapters)),
    by simp [buildFfmetadata, hne], ?_, ?_, ?_, ?_, ?_⟩
  · rw [ffBlocksAux_length, normalizeFirst_length, List.length_insertionSort]
  · exact ffBlocksAux_chain (normalizeFirst_sorted (List.sorted_insertionSort _ _))
  · rw [hnf]
    obtain ⟨b, bs, hb, hb0⟩ := ffBlocksAux_head_start duration s0 t0 rest0 hs0
    exact ⟨b, bs, hb, hb0⟩
  · obtain ⟨s', t', hlast⟩ := ffBlocksAux_last duration
      (normalizeFirst (List.insertionSort byStart chapters))
      (by rw [hnf]; simp)
    exact ⟨_, hlast, rfl⟩
  · rw [ffBlocksAux_map_title]
    have := normalizeFirst_map_snd (List.insertionSort byStart chapters)
    calc (normalizeFirst (List.insertionSort byStart chapters)).map
          (fun c => sanitizeTitle c.2)
        = ((normalizeFirst (List.insertionSort byStart chapters)).map Prod.snd).map
            sanitizeTitle := by rw [List.map_map]; rfl
      _ = ((List.insertionSort byStart chapters).map Prod.snd).map sanitizeTitle := by
            rw [this]
      _ = _ := by rw [List.map_map]; rfl

/-- C2 witness: the amended theorem applied to the concrete chapter list
`[(5, "Chapter 1"), (25, "Chapter 2")]` with duration 60. -/
theorem buildFfmetadata_blocks_correct_witness :
    ([((5 : ℚ), "Chapter 1"), (25, "Chapter 2")] : List (ℚ × String)) ≠ [] ∧
    ∃ blocks, buildFfmetadata [((5 : ℚ), "Chapter 1"), (25, "Chapter 2")] 60 = some blocks ∧
      blocks.length = 2 ∧
      List.Chain' (fun b1 b2 => b1.endMs = b2.startMs) blocks ∧
      (∃ b bs, blocks = b :: bs ∧ b.startMs = 0) ∧
      (∃ bl, blocks.getLast? = some bl ∧
        bl.endMs = max bl.startMs (pyRound ((60 : ℚ) * 1000))) ∧
      blocks.map FfChapterBlock.title =
        (List.insertionSort byStart [((5 : ℚ), "Chapter 1"), (25, "Chapter 2")]).map
          (fun c => sanitizeTitle c.2) :=
  ⟨by simp, by
    have h := buildFfmetadata_blocks_correct [(5, "Chapter 1"), (25, "Chapter 2")] 60 (by simp)
    simpa using h⟩

/-- C2 counterexample: with chapters at 0 s and 10 s but duration only 5 s, the
last block's END is 10000 ms (clamped to its START), not the duration 5000 ms,
refuting "the END of the last chapter equals the duration" for every duration. -/
theorem buildFfmetadata_last_end_counterexample :
    buildFfmetadata [((0 : ℚ), "a"), (10, "b")] 5 =
      some [⟨0, 10000, "a"⟩, ⟨10000, 10000, "b"⟩] ∧
    pyRound ((5 : ℚ) * 1000) = 5000 ∧ (10000 : ℤ) ≠ 5000 := by
  have h0 : pyRound (0 : ℚ) = 0 := by
    rw [show (0 : ℚ) = ((0 : ℤ) : ℚ) by norm_num, pyRound_intCast]
  have h10000 : pyRound (10000 : ℚ) = 10000 := by
    rw [show (10000 : ℚ) = ((10000 : ℤ) : ℚ) by norm_num, pyRound_intCast]
  have h5000 : pyRound (5000 : ℚ) = 5000 := by
    rw [show (5000 : ℚ) = ((5000 : ℤ) : ℚ) by norm_num, pyRound_intCast]
  have h5 : pyRound ((5 : ℚ) * 1000) = 5000 := by
    rw [show ((5 : ℚ) * 1000) = ((5000 : ℤ) : ℚ) by norm_num, pyRound_intCast]
  refine ⟨?_, h5, by decide⟩
  norm_num [buildFfmetadata, List.insertionSort, List.orderedInsert, byStart,
    normalizeFirst, ffBlocksAux, ffChapterBlock,
    sanitizeTitle, pyStrip, replaceNewlines, pyIsSpace]
  rw [h0, h10000, h5000]
  refine ⟨⟨by decide, by decide, by decide⟩, by decide, by decide, by decide⟩

/-! ## Grouped local submit
(`LocalChapterService.validate_grouped_boundary_mapping`,
src/backend/app/services/local_chapter_service.py lines 15-35, and
`ProcessingPipeline.submit_chapters`,
src/backend/app/services/processing_pipeline.py lines 1743-1795) -/

/-- `LocalChapterService.validate_grouped_boundary_mapping`. -/
def validateGroupedBoundaryMapping (selectedStarts expectedStarts : List ℚ)
    (tolerance : ℚ) : Bool × String :=
  if selectedStarts.length ≠ expectedStarts.length then
    (false,
      "Grouped multi-file write requires " ++ toString expectedStarts.length ++
        " selected chapters (got " ++ toString selectedStarts.length ++ ").")
  else if (selectedStarts.zip expectedStarts).any
      (fun p => decide (tolerance < |p.1 - p.2|)) then
    (false, "Grouped multi-file write requires chapter timestamps to align with file boundaries.")
  else
    (true, "")

/-- The fields of `ChapterData` consumed by `submit_chapters`. -/
structure SubmitChapter where
  timestamp : ℚ
  currentTitle : String
  selected : Bool

/-- Ordering for `selected_chapters.sort(key=lambda chapter: chapter.timestamp)`. -/
def byTimestamp (a b : SubmitChapter) : Prop := a.timestamp ≤ b.timestamp

instance : DecidableRel byTimestamp :=
  fun a b => inferInstanceAs (Decidable (a.timestamp ≤ b.timestamp))

/-- `local_media_layout` values. -/
inductive MediaLayout where
  | singleFile
  | multiFileGrouped
  | multiFileIndividual
  deriving DecidableEq

/-- The write that `submit_chapters` hands to `LocalChapterService`; the
validation guards all run before either constructor is produced, mirroring the
code raising before `write_grouped_file_titles` / `write_single_file_chapters`
is invoked. -/
inductive WriteAction where
  | groupedFileTitles (files : List String) (titles : List String) (createBackup : Bool)
  | singleFileChapters (file : String) (chapters : List (ℚ × String)) (createBackup : Bool)
  deriving DecidableEq

/-- The `source_type == "local"` branch of `ProcessingPipeline.submit_chapters`.
`Except.error` models a raised `RuntimeError` (no file written). -/
def submitChaptersLocal (layout : MediaLayout) (localAudioFiles : List String)
    (fileStarts : Option (List ℚ)) (chapters : List SubmitChapter)
    (createBackup : Bool) : Except String WriteAction :=
  let selectedChapters :=
    List.insertionSort byTimestamp (chapters.filter (·.selected))
  if selectedChapters.isEmpty then
    .error "No chapters selected for submission"
  else if layout = .multiFileGrouped then
    if localAudioFiles.length < 2 then
      .error "Grouped local write requested, but source files were not tracked"
    else if selectedChapters.length ≠ localAudioFiles.length then
      .error ("Grouped multi-file write requires one selected chapter per source file. " ++
        "Adjust chapter count to match file count.")
    else
      let expectedStarts := fileStarts.getD []
      if expectedStarts.length ≠ selectedChapters.length then
        .error "Grouped multi-file mapping data is unavailable for write-back"
      else
        match validateGroupedBoundaryMapping
            (selectedChapters.map (·.timestamp)) expectedStarts (3/4) with
        | (false, msg) =>
          .error (msg ++ " Reset timestamps to file-start cues and try again.")
        | (true, _) =>
          .ok (.groupedFileTitles localAudioFiles
            (selectedChapters.map (·.currentTitle)) createBackup)
  else
    match localAudioFiles with
    | [] => .error "No local audio file available for write-back"
    | f :: _ =>
      .ok (.singleFileChapters f
        (selectedChapters.map (fun c => (c.timestamp, c.currentTitle))) createBackup)

theorem validateGroupedBoundaryMapping_true {s e : List ℚ} {tol : ℚ} {m : String}
    (h : validateGroupedBoundaryMapping s e tol = (true, m)) :
    s.length = e.length ∧ ∀ p ∈ s.zip e, |p.1 - p.2| ≤ tol := by
  unfold validateGroupedBoundaryMapping at h
  split_ifs at h with h1 h2
  · simp at h
  · simp at h
  · refine ⟨not_ne_iff.mp h1, fun p hp => ?_⟩
    rw [List.any_eq_true] at h2
    push_neg at h2
    have := h2 p hp
    simpa using this

theorem validateGroupedBoundaryMapping_deviation {s e : List ℚ} {tol : ℚ}
    (hlen : s.length = e.length) {p : ℚ × ℚ} (hp : p ∈ s.zip e)
    (hdev : tol < |p.1 - p.2|) :
    validateGroupedBoundaryMapping s e tol =
      (false,
        "Grouped multi-file write requires chapter timestamps to align with file boundaries.") := by
  unfold validateGroupedBoundaryMapping
  rw [if_neg (not_ne_iff.mpr hlen), if_pos]
  rw [List.any_eq_true]
  exact ⟨p, hp, by simpa using hdev⟩

/-- C3: a grouped local submit succeeds only when the number of selected
chapters equals the number of source files and every selected timestamp is
within ±0.75 s of the corresponding expected file start; any count mismatch or
a deviation of more than 0.75 s makes `submit_chapters` raise (in the model:
return `.error`) before any write action is produced. -/
theorem submitChaptersGrouped_boundary_guard
    (files : List String) (starts : List ℚ) (chapters : List SubmitChapter)
    (backup : Bool) :
    (∀ w, submitChaptersLocal .multiFileGrouped files (some starts) chapters backup = .ok w →
      (List.insertionSort byTimestamp (chapters.filter (·.selected))).length = files.length ∧
      starts.length =
        (List.insertionSort byTimestamp (chapters.filter (·.selected))).length ∧
      ∀ p ∈ ((List.insertionSort byTimestamp (chapters.filter (·.selected))).map
          (·.timestamp)).zip starts, |p.1 - p.2| ≤ 3/4) ∧
    (((List.insertionSort byTimestamp (chapters.filter (·.selected))).length ≠ files.length ∨
      ∃ p ∈ ((List.insertionSort byTimestamp (chapters.filter (·.selected))).map
          (·.timestamp)).zip starts, 3/4 < |p.1 - p.2|) →
      ∃ msg,
        submitChaptersLocal .multiFileGrouped files (some starts) chapters backup =
          .error msg) := by
  have hgd : (some starts : Option (List ℚ)).getD [] = starts := rfl
  constructor
  · intro w hw
    simp only [submitChaptersLocal, hgd] at hw
    by_cases hempty :
        (List.insertionSort byTimestamp (chapters.filter (·.selected))).isEmpty = true
    · rw [if_pos hempty] at hw; exact absurd hw (by simp)
    rw [if_neg hempty, if_pos trivial] at hw
    by_cases hlt : files.length < 2
    · rw [if_pos hlt] at hw; exact absurd hw (by simp)
    rw [if_neg hlt] at hw
    by_cases hlen :
        (List.insertionSort byTimestamp (chapters.filter (·.selected))).length ≠
          files.length
    · rw [if_pos hlen] at hw; exact absurd hw (by simp)
    rw [if_neg hlen] at hw
    by_cases hexp : starts.length ≠
        (List.insertionSort byTimestamp (chapters.filter (·.selected))).length
    · rw [if_pos hexp] at hw; exact absurd hw (by simp)
    rw [if_neg hexp] at hw
    rcases hv : validateGroupedBoundaryMapping
        ((List.insertionSort byTimestamp (chapters.filter (·.selected))).map
          (·.timestamp)) starts (3/4) with ⟨b, m⟩
    rw [hv] at hw
    cases b
    · exact absurd hw (by simp)
    · obtain ⟨_, hall⟩ := validateGroupedBoundaryMapping_true hv
      exact ⟨not_ne_iff.mp hlen, not_ne_iff.mp hexp, hall⟩
  · intro hbad
    simp only [submitChaptersLocal, hgd]
    by_cases hempty :
        (List.insertionSort byTimestamp (chapters.filter (·.selected))).isEmpty = true
    · rw [if_pos hempty]; exact ⟨_, rfl⟩
    rw [if_neg hempty, if_pos trivial]
    by_cases hlt : files.length < 2
    · rw [if_pos hlt]; exact ⟨_, rfl⟩
    rw [if_neg hlt]
    by_cases hlen :
        (List.insertionSort byTimestamp (chapters.filter (·.selected))).length ≠
          files.length
    · rw [if_pos hlen]; exact ⟨_, rfl⟩
    rw [if_neg hlen]
    by_cases hexp : starts.length ≠
        (List.insertionSort byTimestamp (chapters.filter (·.selected))).length
    · rw [if_pos hexp]; exact ⟨_, rfl⟩
    rw [if_neg hexp]
    rcases hbad with hbad | ⟨p, hp, hdev⟩
    · exact absurd hbad hlen
    · have hv := validateGroupedBoundaryMapping_deviation
        (by rw [List.length_map]; exact (not_ne_iff.mp hexp).symm) hp hdev
      rw [hv]
      exact ⟨_, rfl⟩

/-- C3 witness: three files with starts `[0, 600, 1500]` and selected chapters
at `[0, 600.3, 1498]` (an off-by-2 s third chapter) make the grouped submit
fail, by the failure direction of the guard theorem. -/
theorem submitChaptersGrouped_boundary_guard_witness :
    ∃ msg, submitChaptersLocal .multiFileGrouped ["f1", "f2", "f3"]
      (some [0, 600, 1500])
      [⟨0, "a", true⟩, ⟨600.3, "b", true⟩, ⟨1498, "c", true⟩] false = .error msg :=
  (submitChaptersGrouped_boundary_guard ["f1", "f2", "f3"] [0, 600, 1500]
    [⟨0, "a", true⟩, ⟨600.3, "b", true⟩, ⟨1498, "c", true⟩] false).2
    (Or.inr ⟨(1498, 1500),
      by norm_num [List.insertionSort, List.orderedInsert, byTimestamp],
      by norm_num⟩)

/-! ## Cue-set merge with unaligned sources
(`ProcessingPipeline._deduplicate_timestamps` and
`ProcessingPipeline._merge_unaligned_timestamps`,
src/backend/app/services/processing_pipeline.py lines 1614-1706) -/

/-- `SimpleChapter` (pydantic model in processing_pipeline.py). -/
structure SimpleChapter where
  timestamp : ℚ
  title : String

/-- `ExistingCueSource` (pydantic model in processing_pipeline.py). -/
structure ExistingCueSource where
  id : String
  name : String
  shortName : String
  description : String
  cues : List SimpleChapter
  duration : ℚ

/-- One step of the deduplication loop: append `ts` unless it is within
`tolerance` of a timestamp already kept. -/
def dedupStep (tolerance : ℚ) (dedup : List ℚ) (ts : ℚ) : List ℚ :=
  if dedup.any (fun e => decide (|ts - e| ≤ tolerance)) then dedup else dedup ++ [ts]

/-- `ProcessingPipeline._deduplicate_timestamps`. -/
def deduplicateTimestamps (timestamps : List ℚ) (tolerance : ℚ)
    (priorityTimestamps : Option (List ℚ)) : List ℚ :=
  if timestamps.isEmpty then []
  else
    match priorityTimestamps with
    | none =>
      match List.insertionSort (· ≤ ·) timestamps with
      | [] => []
      | s0 :: srest => srest.foldl (dedupStep tolerance) [s0]
    | some priority =>
      let dedup0 := List.insertionSort (· ≤ ·) priority
      let nonPriority := timestamps.filter (fun ts => decide (ts ∉ priority))
      List.insertionSort (· ≤ ·)
        ((List.insertionSort (· ≤ ·) nonPriority).foldl (dedupStep tolerance) dedup0)

/-- `ProcessingPipeline._get_existing_cue_source` (lookup by id in
`self.existing_cue_sources`; the pipeline passes that same list as the
`cue_sources` argument of `_merge_unaligned_timestamps`). -/
def getExistingCueSource (cueSources : List ExistingCueSource) (id : String) :
    Option ExistingCueSource :=
  cueSources.find? (fun s => s.id == id)

/-- The per-source body of the `for source_id in include_unaligned` loop: the
cues of that source farther than `tolerance` from every selected timestamp
(an unknown source id contributes nothing, like the `continue`). -/
def unalignedFromSource (cueSources : List ExistingCueSource)
    (selectedTimestamps : List ℚ) (tolerance : ℚ) (sourceId : String) : List ℚ :=
  match getExistingCueSource cueSources sourceId with
  | none => []
  | some cueSource =>
    (cueSource.cues.map (·.timestamp)).filter
      (fun t => !(selectedTimestamps.any (fun s => decide (|t - s| ≤ tolerance))))

/-- `ProcessingPipeline._merge_unaligned_timestamps`. -/
def mergeUnalignedTimestamps (selectedTimestamps : List ℚ)
    (cueSources : List ExistingCueSource) (includeUnaligned : List String) : List ℚ :=
  if includeUnaligned.isEmpty || cueSources.isEmpty then selectedTimestamps
  else
    let allUnaligned := includeUnaligned.foldl
      (fun acc sourceId => acc ++ unalignedFromSource cueSources selectedTimestamps 5 sourceId)
      []
    deduplicateTimestamps (selectedTimestamps ++ allUnaligned) 5 (some selectedTimestamps)

theorem mem_foldl_dedupStep_of_mem {tol : ℚ} {x : ℚ} {l : List ℚ} :
    ∀ {acc : List ℚ}, x ∈ acc → x ∈ l.foldl (dedupStep tol) acc := by
  induction l with
  | nil => exact fun h => h
  | cons b bs ih =>
    intro acc h
    simp only [List.foldl_cons]
    refine ih ?_
    unfold dedupStep
    split
    · exact h
    · exact List.mem_append_left _ h

theorem mem_of_mem_foldl_dedupStep {tol : ℚ} {x : ℚ} {l : List ℚ} :
    ∀ {acc : List ℚ}, x ∈ l.foldl (dedupStep tol) acc → x ∈ acc ∨ x ∈ l := by
  induction l with
  | nil => exact fun h => Or.inl h
  | cons b bs ih =>
    intro acc h
    simp only [List.foldl_cons] at h
    rcases ih h with h' | h'
    · unfold dedupStep at h'
      revert h'
      split
      · exact fun h' => Or.inl h'
      · intro h'
        rcases List.mem_append.mp h' with h'' | h''
        · exact Or.inl h''
        · simp only [List.mem_singleton] at h''
          exact Or.inr (by simp [h''])
    · exact Or.inr (List.mem_cons_of_mem _ h')

theorem mem_foldl_append {α β : Type} (h : β → List α) (l : List β) (x : α) :
    ∀ acc : List α,
      (x ∈ l.foldl (fun a b => a ++ h b) acc ↔ x ∈ acc ∨ ∃ b ∈ l, x ∈ h b) := by
  induction l with
  | nil => intro acc; simp
  | cons b bs ih =>
    intro acc
    simp only [List.foldl_cons]
    rw [ih]
    simp only [List.mem_append, List.mem_cons]
    constructor
    · rintro ((h1 | h1) | ⟨c, hc, h1⟩)
      · exact Or.inl h1
      · exact Or.inr ⟨b, Or.inl rfl, h1⟩
      · exact Or.inr ⟨c, Or.inr hc, h1⟩
    · rintro (h1 | ⟨c, (rfl | hc), h1⟩)
      · exact Or.inl (Or.inl h1)
      · exact Or.inl (Or.inr h1)
      · exact Or.inr ⟨c, hc, h1⟩

/-- C4: finalizing a cue set with included-unaligned sources keeps every
selected timestamp; every other cue in the result comes from an included
source and is farther than 5 s from every selected timestamp; and on the
concrete scenario (selected `[10, 100, 500]`, source cues `[11, 200, 500.2]`)
the result is `[10, 100, 200, 500]`. -/
theorem mergeUnalignedTimestamps_correct (selected : List ℚ)
    (cueSources : List ExistingCueSource) (includeUnaligned : List String) :
    (∀ s ∈ selected, s ∈ mergeUnalignedTimestamps selected cueSources includeUnaligned) ∧
    (∀ t ∈ mergeUnalignedTimestamps selected cueSources includeUnaligned,
      t ∈ selected ∨ ∃ sid ∈ includeUnaligned, ∃ src,
        getExistingCueSource cueSources sid = some src ∧
        (∃ c ∈ src.cues, c.timestamp = t) ∧ ∀ s ∈ selected, 5 < |t - s|) ∧
    mergeUnalignedTimestamps [10, 100, 500]
      [{ id := "ext", name := "External", shortName := "ext", description := "",
         cues := [⟨11, ""⟩, ⟨200, ""⟩, ⟨500.2, ""⟩], duration := 600 }]
      ["ext"] = [10, 100, 200, 500] := by
  refine ⟨?_, ?_, ?_⟩
  · intro s hs
    unfold mergeUnalignedTimestamps
    split
    · exact hs
    · have hne : ((selected ++ (includeUnaligned.foldl
          (fun acc sourceId =>
            acc ++ unalignedFromSource cueSources selected 5 sourceId) [])).isEmpty)
          = false := by
        rcases selected with _ | ⟨a, as⟩
        · cases hs
        · rfl
      simp only [deduplicateTimestamps, hne, Bool.false_eq_true, if_false]
      exact (List.mem_insertionSort _).mpr
        (mem_foldl_dedupStep_of_mem ((List.mem_insertionSort _).mpr hs))
  · intro t ht
    unfold mergeUnalignedTimestamps at ht
    split at ht
    · exact Or.inl ht
    · by_cases hne : ((selected ++ (includeUnaligned.foldl
          (fun acc sourceId =>
            acc ++ unalignedFromSource cueSources selected 5 sourceId) [])).isEmpty)
          = true
      · simp only [deduplicateTimestamps, hne, if_true] at ht
        cases ht
      · rw [Bool.not_eq_true] at hne
        simp only [deduplicateTimestamps, hne, Bool.false_eq_true, if_false] at ht
        rw [List.mem_insertionSort] at ht
        rcases mem_of_mem_foldl_dedupStep ht with h1 | h1
        · exact Or.inl ((List.mem_insertionSort _).mp h1)
        · rw [List.mem_insertionSort, List.mem_filter] at h1
          obtain ⟨hmem, hnp⟩ := h1
          have hnotsel : t ∉ selected := of_decide_eq_true hnp
          have htall : t ∈ includeUnaligned.foldl
              (fun acc sourceId =>
                acc ++ unalignedFromSource cueSources selected 5 sourceId) [] := by
            rcases List.mem_append.mp hmem with h2 | h2
            · exact absurd h2 hnotsel
            · exact h2
          rw [mem_foldl_append] at htall
          rcases htall with h2 | ⟨sid, hsid, h2⟩
          · cases h2
          · unfold unalignedFromSource at h2
            rcases hfind : getExistingCueSource cueSources sid with _ | src
            · rw [hfind] at h2; cases h2
            · rw [hfind] at h2
              rw [List.mem_filter] at h2
              obtain ⟨hmap, hpred⟩ := h2
              obtain ⟨c, hc, hct⟩ := List.mem_map.mp hmap
              refine Or.inr ⟨sid, hsid, src, hfind, ⟨c, hc, hct⟩, fun s hs => ?_⟩
              rcases hb : (selected.any fun s' => decide (|t - s'| ≤ 5)) with _ | _
              · rw [List.any_eq_false] at hb
                have := hb s hs
                simp only [decide_eq_true_eq] at this
                exact not_le.mp this
              · rw [hb] at hpred
                simp at hpred
  · have d1 : decide (|(2451 : ℚ) / 5| ≤ 5) = false := decide_eq_false (by
      rw [show |(2451 : ℚ) / 5| = 2451 / 5 from abs_of_nonneg (by norm_num)]
      norm_num)
    have d2 : decide (|(2001 : ℚ) / 5| ≤ 5) = false := decide_eq_false (by
      rw [show |(2001 : ℚ) / 5| = 2001 / 5 from abs_of_nonneg (by norm_num)]
      norm_num)
    have d3 : decide (|(1 : ℚ) / 5| ≤ 5) = true := decide_eq_true (by
      rw [show |(1 : ℚ) / 5| = 1 / 5 from abs_of_nonneg (by norm_num)]
      norm_num)
    norm_num [mergeUnalignedTimestamps, deduplicateTimestamps, unalignedFromSource,
      getExistingCueSource, dedupStep, List.insertionSort, List.orderedInsert,
      List.find?, List.foldl, List.filter, d1, d2, d3]

/-! ## Coverage tracking
(`ProcessingPipeline._merge_regions` and
`ProcessingPipeline._get_uncovered_subregions`,
src/backend/app/services/processing_pipeline.py lines 2009-2021 and 2047-2071) -/

/-- Ordering used by `sorted(regions, key=lambda r: r[0])`. -/
def byRegionStart (a b : ℚ × ℚ) : Prop := a.1 ≤ b.1

instance : DecidableRel byRegionStart := fun a b => inferInstanceAs (Decidable (a.1 ≤ b.1))

instance : IsTotal (ℚ × ℚ) byRegionStart := ⟨fun a b => le_total a.1 b.1⟩

instance : IsTrans (ℚ × ℚ) byRegionStart := ⟨fun _ _ _ => le_trans⟩

/-- The merge loop of `_merge_regions`; `cur` is `merged[-1]`, mutated in place
by the Python code. -/
def mergeLoop (cur : ℚ × ℚ) : List (ℚ × ℚ) → List (ℚ × ℚ)
  | [] => [cur]
  | (s, e) :: rest =>
    if s ≤ cur.2 then mergeLoop (cur.1, max cur.2 e) rest
    else cur :: mergeLoop (s, e) rest

/-- `ProcessingPipeline._merge_regions`. -/
def mergeRegions (regions : List (ℚ × ℚ)) : List (ℚ × ℚ) :=
  match List.insertionSort byRegionStart regions with
  | [] => []
  | r0 :: rest => mergeLoop r0 rest

/-- The sweep loop of `_get_uncovered_subregions` over the merged regions;
`current` is the loop variable, and the `r_start >= end: break` and trailing
`current < end` append are folded into the recursion. -/
def uncoveredLoop («end» : ℚ) (current : ℚ) : List (ℚ × ℚ) → List (ℚ × ℚ)
  | [] => if current < «end» then [(current, «end»)] else []
  | (rs, re) :: rest =>
    if rs ≥ «end» then (if current < «end» then [(current, «end»)] else [])
    else
      (if rs > current then [(current, min rs «end»)] else []) ++
        uncoveredLoop «end» (max current re) rest

/-- `ProcessingPipeline._get_uncovered_subregions`. -/
def getUncoveredSubregions (scanned : List (ℚ × ℚ)) (start «end» : ℚ) :
    List (ℚ × ℚ) :=
  if scanned.isEmpty then [(start, «end»)]
  else uncoveredLoop «end» start (mergeRegions scanned)

/-- A point lies in one of the (closed) regions of the list. -/
def inRegions (l : List (ℚ × ℚ)) (x : ℚ) : Prop :=
  ∃ r ∈ l, r.1 ≤ x ∧ x ≤ r.2

theorem uncoveredLoop_subset {e : ℚ} :
    ∀ {l : List (ℚ × ℚ)} {current : ℚ} {p : ℚ × ℚ},
      p ∈ uncoveredLoop e current l → current ≤ p.1 ∧ p.2 ≤ e := by
  intro l
  induction l with
  | nil =>
    intro current p hp
    unfold uncoveredLoop at hp
    split at hp
    · rcases List.mem_singleton.mp hp with rfl
      exact ⟨le_refl _, le_refl _⟩
    · cases hp
  | cons hd rest ih =>
    rcases hd with ⟨rs, re⟩
    intro current p hp
    unfold uncoveredLoop at hp
    split at hp
    · split at hp
      · rcases List.mem_singleton.mp hp with rfl
        exact ⟨le_refl _, le_refl _⟩
      · cases hp
    · rcases List.mem_append.mp hp with hgap | hrec
      · revert hgap
        split
        · intro hgap
          rcases List.mem_singleton.mp hgap with rfl
          exact ⟨le_refl _, min_le_right _ _⟩
        · intro hgap; cases hgap
      · have := ih hrec
        exact ⟨le_trans (le_max_left _ _) this.1, this.2⟩

theorem uncoveredLoop_covers {e : ℚ} :
    ∀ {l : List (ℚ × ℚ)} {current x : ℚ},
      current ≤ x → x ≤ e → current < e →
      inRegions (uncoveredLoop e current l) x ∨ inRegions l x := by
  intro l
  induction l with
  | nil =>
    intro current x hcx hxe hce
    left
    unfold uncoveredLoop
    rw [if_pos hce]
    exact ⟨(current, e), List.mem_singleton.mpr rfl, hcx, hxe⟩
  | cons hd rest ih =>
    rcases hd with ⟨rs, re⟩
    intro current x hcx hxe hce
    unfold uncoveredLoop
    by_cases hbr : rs ≥ e
    · left
      rw [if_pos hbr, if_pos hce]
      exact ⟨(current, e), List.mem_singleton.mpr rfl, hcx, hxe⟩
    · rw [if_neg hbr]
      by_cases hrx : rs ≤ x
      · by_cases hre : x ≤ re
        · exact Or.inr ⟨(rs, re), List.mem_cons_self _ _, hrx, hre⟩
        · have hmx : max current re ≤ x := max_le hcx (le_of_not_le hre)
          have hme : max current re < e :=
            max_lt hce (lt_of_lt_of_le (lt_of_not_le hre) hxe)
          rcases ih hmx hxe hme with h | h
          · exact Or.inl (by
              rcases h with ⟨p, hp, hx⟩
              exact ⟨p, List.mem_append_right _ hp, hx⟩)
          · exact Or.inr (by
              rcases h with ⟨p, hp, hx⟩
              exact ⟨p, List.mem_cons_of_mem _ hp, hx⟩)
      · have hrs : current < rs := lt_of_le_of_lt hcx (lt_of_not_le hrx)
        left
        refine ⟨(current, min rs e), ?_, hcx, le_min (le_of_lt (lt_of_not_le hrx)) hxe⟩
        rw [if_pos hrs]
        exact List.mem_append_left _ (List.mem_singleton.mpr rfl)

/-- C5 (amended): for every list of scanned regions and every interval
`[start, end]` with `start < end`, the uncovered subregions together with the
parts of the merged scanned regions lying inside `[start, end]` are exactly
`[start, end]` as a set of points. -/
theorem getUncoveredSubregions_union (scanned : List (ℚ × ℚ)) (s e : ℚ)
    (hse : s < e) :
    ∀ x : ℚ,
      (inRegions (getUncoveredSubregions scanned s e) x ∨
        (inRegions (mergeRegions scanned) x ∧ s ≤ x ∧ x ≤ e)) ↔ s ≤ x ∧ x ≤ e := by
  intro x
  constructor
  · rintro (h | ⟨_, hx⟩)
    · unfold getUncoveredSubregions at h
      split at h
      · rcases h with ⟨p, hp, hx1, hx2⟩
        rcases List.mem_singleton.mp hp with rfl
        exact ⟨hx1, hx2⟩
      · rcases h with ⟨p, hp, hx1, hx2⟩
        have hb := uncoveredLoop_subset hp
        exact ⟨le_trans hb.1 hx1, le_trans hx2 hb.2⟩
    · exact hx
  · intro hx
    unfold getUncoveredSubregions
    split
    · exact Or.inl ⟨(s, e), List.mem_singleton.mpr rfl, hx.1, hx.2⟩
    · rcases uncoveredLoop_covers hx.1 hx.2 hse with h | h
      · exact Or.inl h
      · exact Or.inr ⟨h, hx⟩

/-- C5 witness: the amended theorem applied to scanned regions `[(0, 100)]`
and the interval `[10, 20]`. -/
theorem getUncoveredSubregions_union_witness :
    (10 : ℚ) < 20 ∧
    ∀ x : ℚ,
      (inRegions (getUncoveredSubregions [((0 : ℚ), 100)] 10 20) x ∨
        (inRegions (mergeRegions [((0 : ℚ), 100)]) x ∧ 10 ≤ x ∧ x ≤ 20)) ↔
      10 ≤ x ∧ x ≤ 20 :=
  ⟨by norm_num, getUncoveredSubregions_union [((0 : ℚ), 100)] 10 20 (by norm_num)⟩

/-- C5 counterexample: with scanned region `(0, 100)` and interval `[10, 20]`,
the union of the uncovered subregions and the merged scanned regions contains
the point 0, which is outside `[10, 20]`, so the union does not equal
`[start, end]` as a set of points. -/
theorem getUncoveredSubregions_union_counterexample :
    ¬ (∀ x : ℚ,
        (inRegions (getUncoveredSubregions [((0 : ℚ), 100)] 10 20) x ∨
          inRegions (mergeRegions [((0 : ℚ), 100)]) x) ↔ 10 ≤ x ∧ x ≤ 20) := by
  intro h
  have hm : inRegions (mergeRegions [((0 : ℚ), 100)]) 0 := by
    refine ⟨(0, 100), ?_, le_refl 0, by norm_num⟩
    simp [mergeRegions, mergeLoop, List.insertionSort, List.orderedInsert]
  have := (h 0).mp (Or.inr hm)
  norm_num at this

/-! ## Realignment first-chapter pin
(`ProcessingPipeline._realign_chapters`,
src/backend/app/services/processing_pipeline.py lines 1145-1202) -/

/-- One entry of the aligner's output (`aligned_chapters`): a dict with
`timestamp`, `title`, `confidence`, `is_guess`. -/
structure AlignedChapter where
  timestamp : ℚ
  title : String
  confidence : ℚ
  isGuess : Bool

/-- `RealignmentData` (models/chapter.py). -/
structure RealignmentData where
  originalTimestamp : ℚ
  confidence : ℚ
  isGuess : Bool

/-- The fields of `ChapterData` set by `_realign_chapters`. -/
structure RealignedChapterData where
  timestamp : ℚ
  asrTitle : String
  currentTitle : String
  realignment : RealignmentData

/-- The `for i, ch in enumerate(aligned_chapters)` loop of `_realign_chapters`:
chapter 0 is pinned to timestamp 0, confidence 1, `is_guess = False`;
`original_chapter = source.cues[i]` is the zipped source cue. -/
def realignLoop (i : ℕ) : List (AlignedChapter × SimpleChapter) → List RealignedChapterData
  | [] => []
  | (ch, orig) :: rest =>
    { timestamp := if i = 0 then 0 else ch.timestamp
      asrTitle := ch.title
      currentTitle := ch.title
      realignment :=
        { originalTimestamp := orig.timestamp
          confidence := if i = 0 then 1 else ch.confidence
          isGuess := if i = 0 then false else ch.isGuess } } :: realignLoop (i + 1) rest

/-- The chapter list stored by `_realign_chapters` (`self.chapters = new_chapters`).
`source.cues[i]` raises `IndexError` when the aligner returned more chapters
than the source has cues; that failure path is `none`. -/
def realignChapters (aligned : List AlignedChapter) (sourceCues : List SimpleChapter) :
    Option (List RealignedChapterData) :=
  if sourceCues.length < aligned.length then none
  else some (realignLoop 0 (aligned.zip sourceCues))

/-- C6: whenever the aligner output is non-empty (and indexing the source cues
succeeds), the first stored chapter has timestamp exactly 0, confidence 1 and
`is_guess = false`, regardless of what the alignment produced for chapter 0. -/
theorem realignChapters_first_pinned (aligned : List AlignedChapter)
    (sourceCues : List SimpleChapter) (hne : aligned ≠ [])
    (hlen : aligned.length ≤ sourceCues.length) :
    ∃ c cs, realignChapters aligned sourceCues = some (c :: cs) ∧
      c.timestamp = 0 ∧ c.realignment.confidence = 1 ∧
      c.realignment.isGuess = false := by
  rcases aligned with _ | ⟨a, as⟩
  · exact absurd rfl hne
  rcases sourceCues with _ | ⟨s, ss⟩
  · simp at hlen
  refine ⟨{ timestamp := 0, asrTitle := a.title, currentTitle := a.title,
            realignment := { originalTimestamp := s.timestamp, confidence := 1,
                             isGuess := false } },
    realignLoop 1 (as.zip ss), ?_, rfl, rfl, rfl⟩
  unfold realignChapters
  rw [if_neg (not_lt.mpr hlen)]
  simp [realignLoop, List.zip]

/-- C6 witness: a single aligned chapter with timestamp 5, confidence 0.5 and
`is_guess = true` still gets pinned to `(0, 1, false)`. -/
theorem realignChapters_first_pinned_witness :
    ([⟨(5 : ℚ), "t", 1/2, true⟩] : List AlignedChapter) ≠ [] ∧
    ([⟨(5 : ℚ), "t", 1/2, true⟩] : List AlignedChapter).length ≤
      ([⟨(0 : ℚ), "t"⟩] : List SimpleChapter).length ∧
    ∃ c cs, realignChapters [⟨(5 : ℚ), "t", 1/2, true⟩] [⟨(0 : ℚ), "t"⟩] =
        some (c :: cs) ∧
      c.timestamp = 0 ∧ c.realignment.confidence = 1 ∧
      c.realignment.isGuess = false :=
  ⟨by simp, by norm_num,
    realignChapters_first_pinned [⟨(5 : ℚ), "t", 1/2, true⟩] [⟨(0 : ℚ), "t"⟩]
      (by simp) (by norm_num)⟩

/-! ## Pipeline restart
(`Step`/`RestartStep` from src/backend/app/models/enums.py,
`ProcessingPipeline.cancel_processing` and `restart_at_step`,
src/backend/app/services/processing_pipeline.py lines 275-422, and
`can_undo`/`can_redo`, lines 430-436) -/

/-- `Step` (models/enums.py). -/
inductive Step where
  | sourceSetup | absSetup | localSetup | llmSetup | idle | validating | downloading
  | filePrep | selectCueSource | audioAnalysis | vadPrep | vadAnalysis
  | partialScanPrep | partialAudioAnalysis | partialVadAnalysis | cueSetSelection
  | audioExtraction | configureAsr | trimming | asrProcessing | chapterEditing
  | aiCleanup | reviewing | completed
  deriving DecidableEq, Repr

/-- `RestartStep` (models/enums.py). -/
inductive RestartStep where
  | idle | selectCueSource | cueSetSelection | configureAsr | chapterEditing
  deriving DecidableEq, Repr

/-- `RestartStep.ordinal`: the index of the member in declaration order. -/
def RestartStep.ordinal : RestartStep → ℕ
  | .idle => 0
  | .selectCueSource => 1
  | .cueSetSelection => 2
  | .configureAsr => 3
  | .chapterEditing => 4

/-- The `Step` carrying the same value string as a `RestartStep`. -/
def RestartStep.toStep : RestartStep → Step
  | .idle => .idle
  | .selectCueSource => .selectCueSource
  | .cueSetSelection => .cueSetSelection
  | .configureAsr => .configureAsr
  | .chapterEditing => .chapterEditing

/-- The mutable pipeline fields read and written by `cancel_processing` /
`restart_at_step`.  `Op` is the type of `ChapterOperation`s on the history
stack and `Chap` the type of `ChapterData`; neither is inspected here.
`tempDirFiles` is the listing of `self.temp_dir`; task fields are the
`asyncio.Task` handles. -/
structure PipelineState (Op Chap : Type) where
  step : Step
  runningProcesses : List ℕ
  extractionTask : Option ℕ
  transcriptionTask : Option ℕ
  trimmingTask : Option ℕ
  downloadTask : Option ℕ
  vadTask : Option ℕ
  aiCleanupTask : Option ℕ
  partialScanTask : Option ℕ
  partialScanTempFiles : List String
  tempDirFiles : List String
  chapters : List Chap
  historyStack : List Op
  historyIndex : ℤ
  cues : List ℚ
  includeUnaligned : List String
  segmentFiles : Option (List String)
  trimmedSegmentFiles : List String
  transcriptions : List String
  transcribedChapters : List Chap
  cueSets : List (ℕ × List ℚ)
  detectedSilences : List (ℚ × ℚ)
  normalScannedRegions : List (ℚ × ℚ)
  vadScannedRegions : List (ℚ × ℚ)
  initialChapterSelectionAvailable : Bool
  isRealignment : Bool

/-- `ProcessingPipeline.can_undo`. -/
def canUndo {Op Chap : Type} (st : PipelineState Op Chap) : Bool :=
  decide (0 ≤ st.historyIndex)

/-- `ProcessingPipeline.can_redo`. -/
def canRedo {Op Chap : Type} (st : PipelineState Op Chap) : Bool :=
  decide (st.historyIndex < (st.historyStack.length : ℤ) - 1)

/-- `ProcessingPipeline.cancel_processing`: cancels and awaits every task,
runs `cleanup_partial_scan_files`, terminates every registered subprocess and
then clears `_running_processes`. -/
def cancelProcessing {Op Chap : Type} (st : PipelineState Op Chap) :
    PipelineState Op Chap :=
  { st with
    extractionTask := none
    aiCleanupTask := none
    transcriptionTask := none
    trimmingTask := none
    downloadTask := none
    vadTask := none
    partialScanTask := none
    partialScanTempFiles := []
    runningProcesses := [] }

/-- `ProcessingPipeline.cleanup_segment_files`: empties `segment_files` when it
is truthy (a non-empty list) and removes every `segment_*` file from the temp
directory. -/
def cleanupSegmentFiles {Op Chap : Type} (st : PipelineState Op Chap) :
    PipelineState Op Chap :=
  { st with
    segmentFiles :=
      match st.segmentFiles with
      | some (_ :: _) => some []
      | other => other
    tempDirFiles := st.tempDirFiles.filter (fun f => !(f.startsWith "segment_")) }

/-- `ProcessingPipeline.cleanup_trimmed_files`: same pattern for
`trimmed_segment_files` and `trimmed_*` files. -/
def cleanupTrimmedFiles {Op Chap : Type} (st : PipelineState Op Chap) :
    PipelineState Op Chap :=
  { st with
    trimmedSegmentFiles :=
      match st.trimmedSegmentFiles with
      | _ :: _ => []
      | [] => []
    tempDirFiles := st.tempDirFiles.filter (fun f => !(f.startsWith "trimmed_")) }

/-- `ProcessingPipeline.restart_at_step`: cancel everything, then walk the
cleanup ladder guarded by `step_num <= RestartStep.X.ordinal`, setting `step`
at each rung.  `restart(idle)` deletes the pipeline (`none`). -/
def restartAtStep {Op Chap : Type} (s : RestartStep) (st : PipelineState Op Chap) :
    Option (PipelineState Op Chap) :=
  let st := cancelProcessing st
  if s = .idle then none
  else
    let stepNum := s.ordinal
    let st := if stepNum ≤ RestartStep.chapterEditing.ordinal then
        { st with step := .chapterEditing } else st
    let st := if stepNum ≤ RestartStep.configureAsr.ordinal then
        let st := cleanupTrimmedFiles st
        { st with
          transcriptions := []
          transcribedChapters := []
          chapters := []
          historyStack := []
          historyIndex := -1
          step := .configureAsr }
      else st
    let st := if stepNum ≤ RestartStep.cueSetSelection.ordinal then
        let st := cleanupSegmentFiles st
        { st with cues := [], includeUnaligned := [], step := .cueSetSelection }
      else st
    let st := if stepNum ≤ RestartStep.selectCueSource.ordinal then
        { st with
          cueSets := []
          detectedSilences := []
          normalScannedRegions := []
          vadScannedRegions := []
          initialChapterSelectionAvailable := false
          isRealignment := false
          step := .selectCueSource }
      else st
    some st

/-- C1: for every restart step other than idle, `restart_at_step(s)` leaves the
step equal to `s`, the supervised-subprocess list empty and every task handle
cleared, and the cleanup ladder has cleared, down to `s`: trimmed files (for
`s ≤ configure_asr`), segment files and selected cues (for
`s ≤ cue_set_selection`), detected silences, both coverage-region lists and
`initial_chapter_selection_available` (for `s ≤ select_cue_source`). -/
theorem restartAtStep_spec {Op Chap : Type} (s : RestartStep)
    (st : PipelineState Op Chap) (hs : s ≠ .idle) :
    ∃ st', restartAtStep s st = some st' ∧
      st'.step = s.toStep ∧
      st'.runningProcesses = [] ∧
      st'.extractionTask = none ∧ st'.transcriptionTask = none ∧
      st'.trimmingTask = none ∧ st'.downloadTask = none ∧ st'.vadTask = none ∧
      st'.aiCleanupTask = none ∧ st'.partialScanTask = none ∧
      (s.ordinal ≤ 3 →
        st'.trimmedSegmentFiles = [] ∧
        ∀ f ∈ st'.tempDirFiles, f.startsWith "trimmed_" = false) ∧
      (s.ordinal ≤ 2 →
        st'.segmentFiles.getD [] = [] ∧
        (∀ f ∈ st'.tempDirFiles, f.startsWith "segment_" = false) ∧
        st'.cues = []) ∧
      (s.ordinal ≤ 1 →
        st'.detectedSilences = [] ∧ st'.normalScannedRegions = [] ∧
        st'.vadScannedRegions = [] ∧
        st'.initialChapterSelectionAvailable = false) := by
  cases s with
  | idle => exact absurd rfl hs
  | selectCueSource =>
    refine ⟨_, rfl, rfl, rfl, rfl, rfl, rfl, rfl, rfl, rfl, rfl, ?_, ?_, ?_⟩
    · intro _
      constructor
      · show (match st.trimmedSegmentFiles with | _ :: _ => [] | [] => []) = []
        rcases st.trimmedSegmentFiles with _ | ⟨a, as⟩ <;> rfl
      · intro f hf
        have hf' : f ∈ (st.tempDirFiles.filter
            (fun g => !(g.startsWith "trimmed_"))).filter
            (fun g => !(g.startsWith "segment_")) := hf
        simp only [List.mem_filter] at hf'
        simpa using hf'.1.2
    · intro _
      refine ⟨?_, ?_, rfl⟩
      · show (match st.segmentFiles with
            | some (_ :: _) => some [] | other => other).getD [] = []
        rcases st.segmentFiles with _ | (_ | ⟨x, xs⟩) <;> rfl
      · intro f hf
        have hf' : f ∈ (st.tempDirFiles.filter
            (fun g => !(g.startsWith "trimmed_"))).filter
            (fun g => !(g.startsWith "segment_")) := hf
        simp only [List.mem_filter] at hf'
        simpa using hf'.2
    · intro _
      exact ⟨rfl, rfl, rfl, rfl⟩
  | cueSetSelection =>
    refine ⟨_, rfl, rfl, rfl, rfl, rfl, rfl, rfl, rfl, rfl, rfl, ?_, ?_, ?_⟩
    · intro _
      constructor
      · show (match st.trimmedSegmentFiles with | _ :: _ => [] | [] => []) = []
        rcases st.trimmedSegmentFiles with _ | ⟨a, as⟩ <;> rfl
      · intro f hf
        have hf' : f ∈ (st.tempDirFiles.filter
            (fun g => !(g.startsWith "trimmed_"))).filter
            (fun g => !(g.startsWith "segment_")) := hf
        simp only [List.mem_filter] at hf'
        simpa using hf'.1.2
    · intro _
      refine ⟨?_, ?_, rfl⟩
      · show (match st.segmentFiles with
            | some (_ :: _) => some [] | other => other).getD [] = []
        rcases st.segmentFiles with _ | (_ | ⟨x, xs⟩) <;> rfl
      · intro f hf
        have hf' : f ∈ (st.tempDirFiles.filter
            (fun g => !(g.startsWith "trimmed_"))).filter
            (fun g => !(g.startsWith "segment_")) := hf
        simp only [List.mem_filter] at hf'
        simpa using hf'.2
    · intro h
      simp [RestartStep.ordinal] at h
  | configureAsr =>
    refine ⟨_, rfl, rfl, rfl, rfl, rfl, rfl, rfl, rfl, rfl, rfl, ?_, ?_, ?_⟩
    · intro _
      constructor
      · show (match st.trimmedSegmentFiles with | _ :: _ => [] | [] => []) = []
        rcases st.trimmedSegmentFiles with _ | ⟨a, as⟩ <;> rfl
      · intro f hf
        have hf' : f ∈ st.tempDirFiles.filter
            (fun g => !(g.startsWith "trimmed_")) := hf
        simp only [List.mem_filter] at hf'
        simpa using hf'.2
    · intro h
      simp [RestartStep.ordinal] at h
    · intro h
      simp [RestartStep.ordinal] at h
  | chapterEditing =>
    refine ⟨_, rfl, rfl, rfl, rfl, rfl, rfl, rfl, rfl, rfl, rfl, ?_, ?_, ?_⟩
    · intro h
      simp [RestartStep.ordinal] at h
    · intro h
      simp [RestartStep.ordinal] at h
    · intro h
      simp [RestartStep.ordinal] at h

/-- A concrete pipeline state with live subprocesses, stale files and data
from every later stage, used by the restart witnesses. -/
def busyPipelineState : PipelineState Unit Unit :=
  { step := .chapterEditing
    runningProcesses := [41, 42]
    extractionTask := some 1
    transcriptionTask := some 2
    trimmingTask := some 3
    downloadTask := none
    vadTask := none
    aiCleanupTask := none
    partialScanTask := some 4
    partialScanTempFiles := ["part"]
    tempDirFiles := ["segment_000.aac", "trimmed_1.wav", "other"]
    chapters := [(), ()]
    historyStack := [(), ()]
    historyIndex := 1
    cues := [1, 2]
    includeUnaligned := ["src"]
    segmentFiles := some ["segment_000.aac"]
    trimmedSegmentFiles := ["trimmed_1.wav"]
    transcriptions := ["a"]
    transcribedChapters := [()]
    cueSets := [(0, [1])]
    detectedSilences := [(1, 2)]
    normalScannedRegions := [(0, 10)]
    vadScannedRegions := [(0, 10)]
    initialChapterSelectionAvailable := true
    isRealignment := true }

/-- C1 witness: the full restart to `select_cue_source` from a state with live
subprocesses, stale files and data from every later stage. -/
theorem restartAtStep_spec_witness :
    (RestartStep.selectCueSource ≠ RestartStep.idle) ∧
    ∃ st', restartAtStep .selectCueSource busyPipelineState = some st' ∧
      st'.step = RestartStep.selectCueSource.toStep ∧
      st'.runningProcesses = [] ∧
      st'.extractionTask = none ∧ st'.transcriptionTask = none ∧
      st'.trimmingTask = none ∧ st'.downloadTask = none ∧ st'.vadTask = none ∧
      st'.aiCleanupTask = none ∧ st'.partialScanTask = none ∧
      (RestartStep.selectCueSource.ordinal ≤ 3 →
        st'.trimmedSegmentFiles = [] ∧
        ∀ f ∈ st'.tempDirFiles, f.startsWith "trimmed_" = false) ∧
      (RestartStep.selectCueSource.ordinal ≤ 2 →
        st'.segmentFiles.getD [] = [] ∧
        (∀ f ∈ st'.tempDirFiles, f.startsWith "segment_" = false) ∧
        st'.cues = []) ∧
      (RestartStep.selectCueSource.ordinal ≤ 1 →
        st'.detectedSilences = [] ∧ st'.normalScannedRegions = [] ∧
        st'.vadScannedRegions = [] ∧
        st'.initialChapterSelectionAvailable = false) :=
  ⟨by decide, restartAtStep_spec .selectCueSource _ (by decide)⟩

/-- C9: restarting at `configure_asr` or any earlier non-idle step also empties
the chapter list and the undo/redo history (`history_stack = []`,
`history_index = -1`), so `can_undo` and `can_redo` are both false afterwards. -/
theorem restartAtStep_clears_history {Op Chap : Type} (s : RestartStep)
    (st : PipelineState Op Chap) (hs : s ≠ .idle) (h3 : s.ordinal ≤ 3) :
    ∃ st', restartAtStep s st = some st' ∧
      st'.chapters = [] ∧ st'.historyStack = [] ∧ st'.historyIndex = -1 ∧
      canUndo st' = false ∧ canRedo st' = false := by
  cases s with
  | idle => exact absurd rfl hs
  | selectCueSource => exact ⟨_, rfl, rfl, rfl, rfl, rfl, rfl⟩
  | cueSetSelection => exact ⟨_, rfl, rfl, rfl, rfl, rfl, rfl⟩
  | configureAsr => exact ⟨_, rfl, rfl, rfl, rfl, rfl, rfl⟩
  | chapterEditing => simp [RestartStep.ordinal] at h3

/-- A concrete idle-ish pipeline state with two chapters and a two-entry
history at cursor 1, used by the history-clearing witness. -/
def quietPipelineState : PipelineState Unit Unit :=
  { step := .chapterEditing
    runningProcesses := []
    extractionTask := none
    transcriptionTask := none
    trimmingTask := none
    downloadTask := none
    vadTask := none
    aiCleanupTask := none
    partialScanTask := none
    partialScanTempFiles := []
    tempDirFiles := []
    chapters := [(), ()]
    historyStack := [(), ()]
    historyIndex := 1
    cues := []
    includeUnaligned := []
    segmentFiles := some []
    trimmedSegmentFiles := []
    transcriptions := []
    transcribedChapters := []
    cueSets := []
    detectedSilences := []
    normalScannedRegions := []
    vadScannedRegions := []
    initialChapterSelectionAvailable := false
    isRealignment := false }

/-- C9 witness: restart at `configure_asr` from a state with two chapters and
a two-entry history at cursor 1. -/
theorem restartAtStep_clears_history_witness :
    (RestartStep.configureAsr ≠ RestartStep.idle) ∧
    RestartStep.configureAsr.ordinal ≤ 3 ∧
    ∃ st', restartAtStep .configureAsr quietPipelineState = some st' ∧
      st'.chapters = [] ∧ st'.historyStack = [] ∧ st'.historyIndex = -1 ∧
      canUndo st' = false ∧ canRedo st' = false :=
  ⟨by decide, by decide, restartAtStep_clears_history .configureAsr _ (by decide) (by decide)⟩

/-! ## Segment extraction and its cancellation path
(`AudioProcessingService._run_segment_extraction` and `extract_segments`,
src/backend/app/services/audio_service.py lines 222-266 and 297-448, and
`ProcessingPipeline._extract_audio_segments`,
src/backend/app/services/processing_pipeline.py lines 1355-1375) -/

/-- Python `str.startswith`. -/
def pyStartsWith (s pre : String) : Bool :=
  s.data.take pre.data.length == pre.data

/-- Index of the last `'.'` in the character list (`name.rfind('.')`). -/
def lastDotIdx (l : List Char) : Option ℕ :=
  match l.reverse.findIdx? (fun c => c == '.') with
  | some j => some (l.length - 1 - j)
  | none => none

/-- `pathlib.PurePath.suffix` of a file name: `name[i:]` when
`0 < i < len(name) - 1` for `i = name.rfind('.')`, else `""`. -/
def pySuffix (name : String) : String :=
  match lastDotIdx name.data with
  | some i => if 0 < i ∧ i < name.data.length - 1 then ⟨name.data.drop i⟩ else ""
  | none => ""

/-- Last path component (what `Path(...).suffix` inspects). -/
def pyBaseName (s : String) : String :=
  ⟨(s.data.reverse.takeWhile (fun c => !(c == '/'))).reverse⟩

/-- Python `s.lstrip(".")`. -/
def pyLstripDots (s : String) : String :=
  ⟨s.data.dropWhile (fun c => c == '.')⟩

/-- Python `int()` on a float: truncation toward zero. -/
def pyTrunc (q : ℚ) : ℤ :=
  if 0 ≤ q then ⌊q⌋ else -⌊-q⌋

/-- `_timestamp_to_filename` for a plain (non-tuple) timestamp:
`int(timestamp * 1000)` as a string. -/
def timestampToFilename (ts : ℚ) : String :=
  toString (pyTrunc (ts * 1000))

/-- `f"{idx:03d}"`. -/
def pad3 (n : ℕ) : String :=
  (if n < 10 then "00" else if n < 100 then "0" else "") ++ toString n

/-- `segment_%03d.<ext>` output names of the segment muxer. -/
def segName (idx : ℕ) (ext : String) : String :=
  "segment_" ++ pad3 idx ++ "." ++ ext

/-- The `expanded_timestamps` construction for a `List[float]` input: after
each cut at `tᵢ` an extended cut at `tᵢ + segment_length`, clamped to
`tᵢ₊₁ - min_clip_length` when it would overlap the next cut. -/
def expandTimestamps (segmentLength minClipLength : ℚ) : List ℚ → List ℚ
  | [] => []
  | [ts] => [ts, ts + segmentLength]
  | ts :: next :: rest =>
    ts ::
      (if ts + segmentLength ≥ next - minClipLength then next - minClipLength
       else ts + segmentLength) ::
      expandTimestamps segmentLength minClipLength (next :: rest)

/-- Output extension selection: `wav` when re-encoding, else the input's
suffix, with the `{m4b, m4a, mp4}` family forced to `aac`. -/
def segmentExtension (audioFile : String) (useWav : Bool) : String :=
  if useWav then "wav"
  else
    let ext := pyLstripDots (pySuffix (pyBaseName audioFile))
    if ext = "m4b" ∨ ext = "m4a" ∨ ext = "mp4" then "aac" else ext

/-- `AudioProcessingService.clean_up_orphaned_segment_files`: remove every
`segment_*` file from the output directory. -/
def cleanUpOrphanedSegmentFiles (dirFiles : List String) : List String :=
  dirFiles.filter (fun f => !(pyStartsWith f "segment_"))

/-- One iteration of the rename loop (`for idx in range(0, len(expanded), 2)`):
delete the extended segment `segment_{idx+1}`, rename `segment_{idx}` to
`segment_<ts_ms>.<ext>` when it exists, collecting the new path. -/
def renameStep (timestamps : List ℚ) (ext : String) (nExp : ℕ)
    (acc : List String × List String) (idx : ℕ) : List String × List String :=
  let dir := if idx + 1 < nExp then acc.2.erase (segName (idx + 1) ext) else acc.2
  if segName idx ext ∈ dir then
    if idx / 2 < timestamps.length then
      let newName :=
        "segment_" ++ timestampToFilename (timestamps.getD (idx / 2) 0) ++ "." ++ ext
      (acc.1 ++ [newName], dir.erase (segName idx ext) ++ [newName])
    else (acc.1, dir)
  else (acc.1, dir)

/-- The rename/cleanup pass after a successful extraction; returns the
collected `paths` and the resulting directory listing. -/
def renameSegments (timestamps : List ℚ) (ext : String) (nExp : ℕ)
    (dir : List String) : List String × List String :=
  ((List.range ((nExp + 1) / 2)).map (· * 2)).foldl
    (renameStep timestamps ext nExp) ([], dir)

/-- Outcome of one ffmpeg segment run: the sentinel exit codes 254/255 are
cancellation/missing input; any other non-zero code is a failure. -/
inductive ExtractAttempt where
  | cancelled (dir : List String)
  | failed (dir : List String)
  | ok (paths : List String) (dir : List String)

/-- Exceptions `_run_segment_extraction` can raise: `IndexError` from
`timestamps[0]` on an empty timestamp list (before any process is spawned),
and `CalledProcessError` for an unrecoverable non-sentinel exit. -/
inductive ExtractError where
  | indexError
  | calledProcessError
  deriving DecidableEq

/-- One attempt of `_run_segment_extraction` given the process exit code `rc`
and the directory contents `dirAfter` left by the process. -/
def runSegmentExtractionAttempt (timestamps : List ℚ) (ext : String)
    (nExp : ℕ) (rc : ℤ) (dirAfter : List String) : ExtractAttempt :=
  if rc ≠ 0 then
    let dir := cleanUpOrphanedSegmentFiles dirAfter
    if rc = 254 ∨ rc = 255 then .cancelled dir else .failed dir
  else
    let (paths, dir) := renameSegments timestamps ext nExp dirAfter
    .ok paths dir

/-- `AudioProcessingService._run_segment_extraction` with its single WAV
retry.  An empty timestamp list raises `IndexError` at the
`isinstance(timestamps[0], tuple)` check, before any process is spawned.
Otherwise `rc b` / `dirFiles b` are the exit code and resulting directory
listing of the run with `use_wav = b` (the subprocess itself is external).
A cancelled run returns `[]`; an unrecoverable failure raises
`CalledProcessError`. -/
def runSegmentExtraction (audioFile : String) (timestamps : List ℚ)
    (segmentLength minClipLength : ℚ) (rc : Bool → ℤ) (dirFiles : Bool → List String)
    (useWav allowRetry : Bool) : Except ExtractError (List String × List String) :=
  if timestamps.isEmpty then .error .indexError
  else
    let nExp := (expandTimestamps segmentLength minClipLength timestamps).length
    match runSegmentExtractionAttempt timestamps (segmentExtension audioFile useWav)
        nExp (rc useWav) (dirFiles useWav) with
    | .cancelled dir => .ok ([], dir)
    | .ok paths dir => .ok (paths, dir)
    | .failed _ =>
      if allowRetry && !useWav then
        match runSegmentExtractionAttempt timestamps (segmentExtension audioFile true)
            nExp (rc true) (dirFiles true) with
        | .cancelled dir => .ok ([], dir)
        | .ok paths dir => .ok (paths, dir)
        | .failed _ => .error .calledProcessError
      else .error .calledProcessError

/-- `AudioProcessingService.extract_segments`: an empty result from the worker
(`if not result`) becomes the distinguished `None` cancellation marker;
exceptions from the worker propagate. -/
def extractSegments (audioFile : String) (timestamps : List ℚ)
    (segmentLength minClipLength : ℚ) (rc : Bool → ℤ)
    (dirFiles : Bool → List String) (useWav allowRetry : Bool) :
    Except ExtractError (Option (List String) × List String) :=
  match runSegmentExtraction audioFile timestamps segmentLength minClipLength
      rc dirFiles useWav allowRetry with
  | .error e => .error e
  | .ok (paths, dir) => if paths.isEmpty then .ok (none, dir) else .ok (some paths, dir)

/-- `ProcessingPipeline._filter_cues_by_duration`. -/
def filterCuesByDuration (cues : List ℚ) (duration : ℚ) : List ℚ :=
  cues.filter (fun cue => decide (cue < duration))

/-- The pipeline fields touched by `_extract_audio_segments`. -/
structure ExtractionPipelineState where
  cues : List ℚ
  segmentFiles : Option (List String)
  tempDirFiles : List String
  deriving DecidableEq

/-- `ProcessingPipeline._extract_audio_segments`: filter the cues by duration,
run the extractor and store its result in `segment_files` (the `None`
cancellation marker included). -/
def extractAudioSegments (st : ExtractionPipelineState) (duration : ℚ)
    (audioFile : String) (segmentLength minClipLength : ℚ) (rc : Bool → ℤ)
    (dirFiles : Bool → List String) : Except ExtractError ExtractionPipelineState :=
  let cues := filterCuesByDuration st.cues duration
  match extractSegments audioFile cues segmentLength minClipLength rc dirFiles
      false true with
  | .error e => .error e
  | .ok (res, dir) => .ok { cues := cues, segmentFiles := res, tempDirFiles := dir }

theorem runSegmentExtractionAttempt_cancelled (timestamps : List ℚ) (ext : String)
    (nExp : ℕ) (rc : ℤ) (dirAfter : List String) (hrc : rc = 254 ∨ rc = 255) :
    runSegmentExtractionAttempt timestamps ext nExp rc dirAfter =
      .cancelled (cleanUpOrphanedSegmentFiles dirAfter) := by
  have hne : rc ≠ 0 := by rcases hrc with h | h <;> omega
  unfold runSegmentExtractionAttempt
  rw [if_pos hne, if_pos hrc]

theorem runSegmentExtraction_empty (audioFile : String)
    (segmentLength minClipLength : ℚ) (rc : Bool → ℤ) (dirFiles : Bool → List String)
    (useWav allowRetry : Bool) :
    runSegmentExtraction audioFile [] segmentLength minClipLength rc dirFiles
      useWav allowRetry = .error .indexError := rfl

theorem runSegmentExtraction_cancelled (audioFile : String) (timestamps : List ℚ)
    (segmentLength minClipLength : ℚ) (rc : Bool → ℤ) (dirFiles : Bool → List String)
    (allowRetry : Bool) (hts : timestamps ≠ [])
    (hrc : rc false = 254 ∨ rc false = 255) :
    runSegmentExtraction audioFile timestamps segmentLength minClipLength rc dirFiles
      false allowRetry = .ok ([], cleanUpOrphanedSegmentFiles (dirFiles false)) := by
  simp only [runSegmentExtraction]
  rw [if_neg (by simpa [List.isEmpty_iff] using hts)]
  rw [runSegmentExtractionAttempt_cancelled _ _ _ _ _ hrc]

theorem extractSegments_cancelled (audioFile : String) (timestamps : List ℚ)
    (segmentLength minClipLength : ℚ) (rc : Bool → ℤ) (dirFiles : Bool → List String)
    (allowRetry : Bool) (hts : timestamps ≠ [])
    (hrc : rc false = 254 ∨ rc false = 255) :
    extractSegments audioFile timestamps segmentLength minClipLength rc dirFiles
      false allowRetry = .ok (none, cleanUpOrphanedSegmentFiles (dirFiles false)) := by
  unfold extractSegments
  rw [runSegmentExtraction_cancelled _ _ _ _ _ _ _ hts hrc]
  rfl

/-- C7 (amended): when an extraction run over at least one cue is cancelled
mid-run (the extraction tool exits with a termination / missing-input sentinel
code, 254 or 255), every partial `segment_*` file in the output directory is
deleted and the pipeline's `segment_files` field ends up as the distinguished
`None` cancellation marker — never a partial list of extracted segments. -/
theorem extractAudioSegments_cancelled (st : ExtractionPipelineState)
    (duration : ℚ) (audioFile : String) (segmentLength minClipLength : ℚ)
    (rc : Bool → ℤ) (dirFiles : Bool → List String)
    (hcues : filterCuesByDuration st.cues duration ≠ [])
    (hrc : rc false = 254 ∨ rc false = 255) :
    ∃ st', extractAudioSegments st duration audioFile segmentLength minClipLength
        rc dirFiles = .ok st' ∧
      st'.segmentFiles = none ∧
      ∀ f ∈ st'.tempDirFiles, pyStartsWith f "segment_" = false := by
  simp only [extractAudioSegments]
  rw [extractSegments_cancelled _ _ _ _ _ _ _ hcues hrc]
  refine ⟨_, rfl, rfl, ?_⟩
  intro f hf
  have hf' : f ∈ (dirFiles false).filter (fun g => !(pyStartsWith g "segment_")) := hf
  simp only [List.mem_filter] at hf'
  simpa using hf'.2

theorem filterCuesByDuration_example :
    filterCuesByDuration [10, 20] 100 = [10, 20] := by
  have d1 : decide ((10 : ℚ) < 100) = true := decide_eq_true (by norm_num)
  have d2 : decide ((20 : ℚ) < 100) = true := decide_eq_true (by norm_num)
  simp [filterCuesByDuration, d1, d2]

/-- C7 witness: a run with cues at 10 s and 20 s (duration 100 s) cancelled
with exit code 255 over a directory holding two partial segments and one
unrelated file. -/
theorem extractAudioSegments_cancelled_witness :
    (filterCuesByDuration ([10, 20] : List ℚ) 100 ≠ []) ∧
    ((fun _ : Bool => (255 : ℤ)) false = 254 ∨ (fun _ : Bool => (255 : ℤ)) false = 255) ∧
    ∃ st', extractAudioSegments ⟨[10, 20], some [], []⟩ 100 "book.m4b" 8 1
        (fun _ => 255) (fun _ => ["segment_000.aac", "segment_001.aac", "other.txt"]) =
        .ok st' ∧
      st'.segmentFiles = none ∧
      ∀ f ∈ st'.tempDirFiles, pyStartsWith f "segment_" = false :=
  ⟨by rw [filterCuesByDuration_example]; simp, Or.inr rfl,
    extractAudioSegments_cancelled ⟨[10, 20], some [], []⟩ 100 "book.m4b" 8 1
      (fun _ => 255) (fun _ => ["segment_000.aac", "segment_001.aac", "other.txt"])
      (by rw [filterCuesByDuration_example]; simp) (Or.inr rfl)⟩

/-- C7 counterexample: on the same cancelled run (cues `[10, 20]`, exit code
255) the `segment_files` field is `None` (the cancellation marker), not the
empty list the claim states — `extract_segments` maps the worker's `[]` to
`None` and `_extract_audio_segments` stores it unchanged. -/
theorem extractAudioSegments_cancelled_counterexample :
    ∃ st', extractAudioSegments ⟨[10, 20], some [], []⟩ 100 "book.m4b" 8 1
        (fun _ => 255) (fun _ => ["segment_000.aac", "segment_001.aac", "other.txt"]) =
        .ok st' ∧
      st'.segmentFiles = none ∧ st'.segmentFiles ≠ some [] ∧
      st'.tempDirFiles = ["other.txt"] := by
  refine ⟨⟨[10, 20], none, ["other.txt"]⟩, ?_, rfl, by simp, rfl⟩
  rw [show extractAudioSegments ⟨[10, 20], some [], []⟩ 100 "book.m4b" 8 1
      (fun _ => 255) (fun _ => ["segment_000.aac", "segment_001.aac", "other.txt"]) =
      .ok { cues := filterCuesByDuration [10, 20] 100, segmentFiles := none,
            tempDirFiles := cleanUpOrphanedSegmentFiles
              ["segment_000.aac", "segment_001.aac", "other.txt"] } from by
    simp only [extractAudioSegments]
    rw [extractSegments_cancelled _ _ _ _ _ _ _
      (by rw [filterCuesByDuration_example]; simp) (Or.inr rfl)]]
  have h2 : cleanUpOrphanedSegmentFiles
      ["segment_000.aac", "segment_001.aac", "other.txt"] = ["other.txt"] := by decide
  rw [filterCuesByDuration_example, h2]

/-! ## Local item ids
(`encode_rel_path`, `decode_rel_path`, `build_item_id`, `parse_item_id`,
src/backend/app/services/local_library_service.py lines 38-46 and 99-113).
Relative paths are modelled by their UTF-8 byte sequences (`List ℕ`, each
byte < 256).  `urlsafe_b64encode` is modelled at the byte/sextet level;
`decode_rel_path` re-adds the stripped padding, which fails exactly when the
unpadded length is 1 mod 4 (and on symbols outside the urlsafe alphabet,
which Python's lenient decoder would instead discard). -/

/-- Byte triples to base64 sextets (with the final 1- or 2-byte group encoded
into 2 or 3 sextets, i.e. the `'='` padding already stripped). -/
def encodeSexts : List ℕ → List ℕ
  | [] => []
  | [a] => [a / 4, a % 4 * 16]
  | [a, b] => [a / 4, a % 4 * 16 + b / 16, b % 16 * 4]
  | a :: b :: c :: rest =>
    a / 4 :: (a % 4 * 16 + b / 16) :: (b % 16 * 4 + c / 64) :: c % 64 ::
      encodeSexts rest

/-- Base64 sextets back to bytes; a trailing group of 2 or 3 sextets decodes
to 1 or 2 bytes (a trailing single sextet cannot arise from well-padded
input). -/
def decodeSexts : List ℕ → List ℕ
  | [] => []
  | [_] => []
  | [s1, s2] => [s1 * 4 + s2 / 16]
  | [s1, s2, s3] => [s1 * 4 + s2 / 16, s2 % 16 * 16 + s3 / 4]
  | s1 :: s2 :: s3 :: s4 :: rest =>
    (s1 * 4 + s2 / 16) :: (s2 % 16 * 16 + s3 / 4) :: (s3 % 4 * 64 + s4) ::
      decodeSexts rest

/-- The urlsafe base64 alphabet (`+/` replaced by `-_`). -/
def b64Alphabet : List Char :=
  "ABCDEFGHIJKLMNOPQRSTUVWXYZabcdefghijklmnopqrstuvwxyz0123456789-_".data

/-- Sextet to alphabet character. -/
def b64Char (n : ℕ) : Char := b64Alphabet.getD n 'A'

/-- Alphabet character back to its sextet. -/
def b64Index? (c : Char) : Option ℕ :=
  b64Alphabet.findIdx? (fun x => x == c)

/-- Map a character list through `b64Index?`, failing on the first symbol
outside the alphabet. -/
def b64Syms? : List Char → Option (List ℕ)
  | [] => some []
  | c :: rest =>
    match b64Index? c, b64Syms? rest with
    | some i, some is => some (i :: is)
    | _, _ => none

/-- `encode_rel_path`: urlsafe base64 of the UTF-8 bytes, `'='` padding
stripped. -/
def encodeRelPath (bytes : List ℕ) : List Char :=
  (encodeSexts bytes).map b64Char

/-- `decode_rel_path`: re-add the stripped padding and decode; an unpadded
length of 1 mod 4 cannot be completed to a valid base64 quantum. -/
def decodeRelPath (chars : List Char) : Option (List ℕ) :=
  match b64Syms? chars with
  | none => none
  | some syms => if syms.length % 4 = 1 then none else some (decodeSexts syms)

/-- The two local item kinds. -/
inductive ItemKind where
  | file
  | folder
  deriving DecidableEq, Repr

/-- The kind prefix of an item id. -/
def ItemKind.str : ItemKind → List Char
  | .file => "file".data
  | .folder => "folder".data

/-- `build_item_id`: `f"{kind}::{encode_rel_path(rel_path)}"`. -/
def buildItemId (kind : ItemKind) (relPath : List ℕ) : List Char :=
  kind.str ++ [':', ':'] ++ encodeRelPath relPath

/-- `item_id.split("::", 1)`: split at the first occurrence of `"::"`,
`none` when there is none (`"::" not in item_id`). -/
def splitOnDoubleColon : List Char → Option (List Char × List Char)
  | [] => none
  | [_] => none
  | a :: b :: rest =>
    if a == ':' && b == ':' then some ([], rest)
    else
      match splitOnDoubleColon (b :: rest) with
      | some (pre, post) => some (a :: pre, post)
      | none => none

/-- `parse_item_id`: split on `"::"`, check the kind is `file` or `folder`,
decode the payload. -/
def parseItemId (itemId : List Char) : Option (ItemKind × List ℕ) :=
  match splitOnDoubleColon itemId with
  | none => none
  | some (kindStr, encoded) =>
    if kindStr = "file".data then
      (decodeRelPath encoded).map (fun r => (ItemKind.file, r))
    else if kindStr = "folder".data then
      (decodeRelPath encoded).map (fun r => (ItemKind.folder, r))
    else none

theorem decodeSexts_encodeSexts :
    ∀ l : List ℕ, (∀ b ∈ l, b < 256) → decodeSexts (encodeSexts l) = l
  | [], _ => rfl
  | [a], h => by
    have ha : a < 256 := h a (by simp)
    simp only [encodeSexts, decodeSexts, List.cons.injEq, and_true]
    omega
  | [a, b], h => by
    have ha : a < 256 := h a (by simp)
    have hb : b < 256 := h b (by simp)
    simp only [encodeSexts, decodeSexts, List.cons.injEq, and_true]
    refine ⟨by omega, by omega⟩
  | a :: b :: c :: rest, h => by
    have ha : a < 256 := h a (by simp)
    have hb : b < 256 := h b (by simp)
    have hc : c < 256 := h c (by simp)
    have ih := decodeSexts_encodeSexts rest (fun x hx => h x (by simp [hx]))
    simp only [encodeSexts, decodeSexts, List.cons.injEq]
    exact ⟨by omega, by omega, by omega, ih⟩

theorem encodeSexts_lt :
    ∀ l : List ℕ, (∀ b ∈ l, b < 256) → ∀ s ∈ encodeSexts l, s < 64
  | [], _ => by simp [encodeSexts]
  | [a], h => by
    have ha : a < 256 := h a (by simp)
    simp only [encodeSexts, List.mem_cons, List.not_mem_nil, or_false]
    rintro s (rfl | rfl) <;> omega
  | [a, b], h => by
    have ha : a < 256 := h a (by simp)
    have hb : b < 256 := h b (by simp)
    simp only [encodeSexts, List.mem_cons, List.not_mem_nil, or_false]
    rintro s (rfl | rfl | rfl) <;> omega
  | a :: b :: c :: rest, h => by
    have ha : a < 256 := h a (by simp)
    have hb : b < 256 := h b (by simp)
    have hc : c < 256 := h c (by simp)
    have ih := encodeSexts_lt rest (fun x hx => h x (by simp [hx]))
    simp only [encodeSexts, List.mem_cons]
    rintro s (rfl | rfl | rfl | rfl | hs)
    · omega
    · omega
    · omega
    · omega
    · exact ih s hs

theorem encodeSexts_length_mod :
    ∀ l : List ℕ, (encodeSexts l).length % 4 ≠ 1
  | [] => by simp [encodeSexts]
  | [_] => by simp [encodeSexts]
  | [_, _] => by simp [encodeSexts]
  | a :: b :: c :: rest => by
    have ih := encodeSexts_length_mod rest
    simp only [encodeSexts, List.length_cons]
    omega

theorem b64Index_b64Char : ∀ n, n < 64 → b64Index? (b64Char n) = some n := by
  decide

theorem b64Syms_map_b64Char :
    ∀ l : List ℕ, (∀ s ∈ l, s < 64) → b64Syms? (l.map b64Char) = some l := by
  intro l
  induction l with
  | nil => intro _; rfl
  | cons s rest ih =>
    intro h
    have hs := b64Index_b64Char s (h s (by simp))
    have hr := ih (fun x hx => h x (by simp [hx]))
    simp only [List.map_cons, b64Syms?, hs, hr]

theorem decodeRelPath_encodeRelPath (bytes : List ℕ) (h : ∀ b ∈ bytes, b < 256) :
    decodeRelPath (encodeRelPath bytes) = some bytes := by
  unfold decodeRelPath encodeRelPath
  rw [b64Syms_map_b64Char _ (encodeSexts_lt bytes h)]
  show (if (encodeSexts bytes).length % 4 = 1 then none
    else some (decodeSexts (encodeSexts bytes))) = some bytes
  rw [if_neg (encodeSexts_length_mod bytes)]
  rw [decodeSexts_encodeSexts bytes h]

theorem splitOnDoubleColon_file (enc : List Char) :
    splitOnDoubleColon ("file".data ++ [':', ':'] ++ enc) = some ("file".data, enc) := rfl

theorem splitOnDoubleColon_folder (enc : List Char) :
    splitOnDoubleColon ("folder".data ++ [':', ':'] ++ enc) = some ("folder".data, enc) := rfl

/-- C10: for every kind in `{file, folder}` and every relative path (as UTF-8
bytes), parsing the item id built from them returns the original kind and
path: the decoder re-adds exactly the padding the encoder stripped. -/
theorem parseItemId_buildItemId (kind : ItemKind) (relPath : List ℕ)
    (h : ∀ b ∈ relPath, b < 256) :
    parseItemId (buildItemId kind relPath) = some (kind, relPath) := by
  cases kind with
  | file =>
    unfold parseItemId buildItemId
    rw [show ItemKind.file.str = "file".data from rfl, splitOnDoubleColon_file]
    show Option.map (fun r => (ItemKind.file, r))
      (decodeRelPath (encodeRelPath relPath)) = some (ItemKind.file, relPath)
    rw [decodeRelPath_encodeRelPath relPath h]
    rfl
  | folder =>
    unfold parseItemId buildItemId
    rw [show ItemKind.folder.str = "folder".data from rfl, splitOnDoubleColon_folder]
    show Option.map (fun r => (ItemKind.folder, r))
      (decodeRelPath (encodeRelPath relPath)) = some (ItemKind.folder, relPath)
    rw [decodeRelPath_encodeRelPath relPath h]
    rfl

/-- C10 witness: the id of a folder at relative path "a/b 1" (UTF-8 bytes
`[97, 47, 98, 32, 49]`) round-trips. -/
theorem parseItemId_buildItemId_witness :
    (∀ b ∈ [97, 47, 98, 32, 49], b < 256) ∧
    parseItemId (buildItemId .folder [97, 47, 98, 32, 49]) =
      some (ItemKind.folder, [97, 47, 98, 32, 49]) :=
  ⟨by decide, parseItemId_buildItemId .folder [97, 47, 98, 32, 49] (by decide)⟩

/-! ## Library scan
(`LocalLibraryService._audio_files_in_dir` and `scan_items`,
src/backend/app/services/local_library_service.py lines 115-121 and 255-358,
plus `natural_sort_key`, line 33).  The filesystem is a tree of named entries;
`os.walk` with the in-place `dirnames[:] = [d for d in dirnames if not
d.startswith(".")]` pruning is `walkTree`/`walkForest`.  Probe-derived values
(durations via ffprobe, sizes via `stat`) are external and not referenced by
the claims, so the item model omits those fields. -/

/-- A directory tree: files and directories with names. -/
inductive FsEntry where
  | file (name : String)
  | dir (name : String) (children : List FsEntry)

def FsEntry.name : FsEntry → String
  | .file n => n
  | .dir n _ => n

def FsEntry.isDir : FsEntry → Bool
  | .file _ => false
  | .dir _ _ => true

/-- One `os.walk` triple: the directory's path (as components from the walk
root) and its entries (`dirnames`/`filenames` are recovered from them;
`_audio_files_in_dir` re-lists the same directory via `iterdir`). -/
structure WalkRow where
  path : List String
  entries : List FsEntry

mutual
/-- `os.walk` (top-down) from one directory, with hidden subdirectories pruned
from `dirnames` before descent — both scan loops apply this same pruning. -/
def walkTree (pfx : List String) : FsEntry → List WalkRow
  | .file _ => []
  | .dir n cs => ⟨pfx ++ [n], cs⟩ :: walkForest (pfx ++ [n]) cs

/-- Walk the kept children: only non-hidden directories are descended into. -/
def walkForest (pfx : List String) : List FsEntry → List WalkRow
  | [] => []
  | c :: rest =>
    (if c.isDir && !(pyStartsWith c.name ".") then walkTree pfx c else []) ++
      walkForest pfx rest
end

/-- Python `str.lower()`. -/
def pyLower (s : String) : String :=
  ⟨s.data.map Char.toLower⟩

/-- `pathlib.PurePath.stem`: the final component without its suffix. -/
def pyStem (name : String) : String :=
  ⟨name.data.take (name.data.length - (pySuffix name).data.length)⟩

/-- The tokenizer behind `natural_sort_key`:
`re.split(r"(\d+)", value)` produces alternating text/digit-run parts
(with empty boundary parts), then digit parts become ints and text parts are
lowercased. -/
def natKeyGo : List Char → List Char → Bool → List (String ⊕ ℕ)
  | [], run, isNum =>
    if isNum then
      [Sum.inr (run.foldl (fun acc c => acc * 10 + (c.toNat - '0'.toNat)) 0),
       Sum.inl ""]
    else [Sum.inl (pyLower ⟨run⟩)]
  | c :: rest, run, isNum =>
    if c.isDigit = isNum then natKeyGo rest (run ++ [c]) isNum
    else
      (if isNum then
        Sum.inr (run.foldl (fun acc c => acc * 10 + (c.toNat - '0'.toNat)) 0)
      else Sum.inl (pyLower ⟨run⟩)) :: natKeyGo rest [c] c.isDigit

/-- `natural_sort_key`. -/
def naturalSortKey (s : String) : List (String ⊕ ℕ) :=
  natKeyGo s.data [] false

/-- Python `<` on strings: lexicographic over code points. -/
def charListLt : List Char → List Char → Bool
  | [], [] => false
  | [], _ :: _ => true
  | _ :: _, [] => false
  | a :: as, b :: bs =>
    if a.toNat < b.toNat then true
    else if b.toNat < a.toNat then false
    else charListLt as bs

/-- Python `<` on one key token.  Comparing an int part with a str part would
raise `TypeError`; the alternating token shape makes that unreachable, and the
model picks an arbitrary order there. -/
def tokLt : (String ⊕ ℕ) → (String ⊕ ℕ) → Bool
  | Sum.inl a, Sum.inl b => charListLt a.data b.data
  | Sum.inr a, Sum.inr b => decide (a < b)
  | Sum.inl _, Sum.inr _ => true
  | Sum.inr _, Sum.inl _ => false

/-- Python `<=` on key lists (lexicographic, shorter-prefix first). -/
def keyLe : List (String ⊕ ℕ) → List (String ⊕ ℕ) → Bool
  | [], _ => true
  | _ :: _, [] => false
  | x :: xs, y :: ys => if x = y then keyLe xs ys else tokLt x y

/-- Sort order of `files.sort(key=lambda p: natural_sort_key(p.name))`. -/
def byNaturalName (a b : FsEntry) : Prop :=
  keyLe (naturalSortKey a.name) (naturalSortKey b.name) = true

instance : DecidableRel byNaturalName :=
  fun a b => inferInstanceAs
    (Decidable (keyLe (naturalSortKey a.name) (naturalSortKey b.name) = true))

/-- `LocalLibraryService._audio_files_in_dir`: the files with a supported
suffix, naturally sorted — note there is no hidden-name filter here. -/
def audioFilesInDir (entries : List FsEntry) : List FsEntry :=
  List.insertionSort byNaturalName
    (entries.filter (fun e =>
      !e.isDir && (pyLower (pySuffix e.name) == ".m4b" ||
                   pyLower (pySuffix e.name) == ".m4a")))

/-- The file names of a directory listing (the walk's `filenames`). -/
def fileNamesOf (entries : List FsEntry) : List String :=
  entries.filterMap (fun e => if e.isDir then none else some e.name)

/-- The fields of a `LocalLibraryItem` the claims are about. -/
structure ScanItem where
  relPath : List String
  name : String
  candidateType : String
  fileNames : List String
  fileCount : ℕ
  canSplit : Bool
  deriving DecidableEq

/-- `"/".join` for relative paths (`Path.as_posix`). -/
def joinPath (components : List String) : String :=
  String.intercalate "/" components

/-- Final ordering: `all_items.sort(key=lambda item: natural_sort_key(item.rel_path))`. -/
def byItemRelPath (a b : ScanItem) : Prop :=
  keyLe (naturalSortKey (joinPath a.relPath)) (naturalSortKey (joinPath b.relPath)) = true

instance : DecidableRel byItemRelPath :=
  fun a b => inferInstanceAs
    (Decidable (keyLe (naturalSortKey (joinPath a.relPath))
      (naturalSortKey (joinPath b.relPath)) = true))

/-- First `scan_items` loop: a non-root directory with at least two supported
audio files becomes a grouped folder book. -/
def groupedItems (rows : List WalkRow) (rootPath : List String) : List ScanItem :=
  rows.filterMap (fun row =>
    if row.path = rootPath then none
    else if (audioFilesInDir row.entries).length < 2 then none
    else some
      { relPath := row.path.drop rootPath.length
        name := (row.path.getLastD "")
        candidateType := "multi_file_folder_book"
        fileNames := (audioFilesInDir row.entries).map FsEntry.name
        fileCount := (audioFilesInDir row.entries).length
        canSplit := true })

/-- The `consumed_files` set: full paths of every audio file absorbed into a
grouped folder book. -/
def consumedFiles (rows : List WalkRow) (rootPath : List String) : List (List String) :=
  rows.flatMap (fun row =>
    if row.path = rootPath then []
    else if (audioFilesInDir row.entries).length < 2 then []
    else (audioFilesInDir row.entries).map (fun e => row.path ++ [e.name]))

/-- Second `scan_items` loop: every remaining non-hidden supported file is a
single-file book. -/
def standaloneItems (rows : List WalkRow) (rootPath : List String)
    (consumed : List (List String)) : List ScanItem :=
  rows.flatMap (fun row =>
    (fileNamesOf row.entries).filterMap (fun fn =>
      if pyStartsWith fn "." then none
      else if !(pyLower (pySuffix fn) == ".m4b" || pyLower (pySuffix fn) == ".m4a") then
        none
      else if (row.path ++ [fn]) ∈ consumed then none
      else some
        { relPath := (row.path ++ [fn]).drop rootPath.length
          name := pyStem fn
          candidateType := "single_file_book"
          fileNames := [fn]
          fileCount := 1
          canSplit := false }))

/-- `LocalLibraryService.scan_items`. -/
def scanItems (root : FsEntry) : List ScanItem :=
  let rows := walkTree [] root
  let rootPath := [root.name]
  let grouped := groupedItems rows rootPath
  let consumed := consumedFiles rows rootPath
  let standalone := standaloneItems rows rootPath consumed
  List.insertionSort byItemRelPath (grouped ++ standalone)

mutual
theorem walkTree_path_suffix (pfx : List String) (t : FsEntry) :
    ∀ row ∈ walkTree pfx t, ∃ suffix, row.path = pfx ++ [t.name] ++ suffix ∧
      ∀ c ∈ suffix, pyStartsWith c "." = false := by
  match t with
  | .file n =>
    intro row hrow
    rw [walkTree] at hrow
    cases hrow
  | .dir n cs =>
    intro row hrow
    rw [walkTree] at hrow
    rcases List.mem_cons.mp hrow with rfl | hmem
    · exact ⟨[], by simp [FsEntry.name], by simp⟩
    · obtain ⟨suffix, hpath, hsuf⟩ := walkForest_path_suffix (pfx ++ [n]) cs row hmem
      exact ⟨suffix, by simpa [FsEntry.name] using hpath, hsuf⟩

theorem walkForest_path_suffix (pfx : List String) (l : List FsEntry) :
    ∀ row ∈ walkForest pfx l, ∃ suffix, row.path = pfx ++ suffix ∧
      ∀ c ∈ suffix, pyStartsWith c "." = false := by
  match l with
  | [] =>
    intro row hrow
    rw [walkForest] at hrow
    cases hrow
  | c :: rest =>
    intro row hrow
    rw [walkForest] at hrow
    rcases List.mem_append.mp hrow with h1 | h1
    · revert h1
      split
      · rename_i hcond
        intro h1
        obtain ⟨suffix, hpath, hsuf⟩ := walkTree_path_suffix pfx c row h1
        refine ⟨c.name :: suffix, by simpa using hpath, ?_⟩
        intro x hx
        rcases List.mem_cons.mp hx with rfl | hx'
        · simp only [Bool.and_eq_true, Bool.not_eq_true'] at hcond
          exact hcond.2
        · exact hsuf x hx'
      · intro h1
        cases h1
    · obtain ⟨suffix, hpath, hsuf⟩ := walkForest_path_suffix pfx rest row h1
      exact ⟨suffix, hpath, hsuf⟩
end

theorem groupedItems_type (rows : List WalkRow) (rootPath : List String) :
    ∀ item ∈ groupedItems rows rootPath,
      item.candidateType = "multi_file_folder_book" := by
  intro item hitem
  unfold groupedItems at hitem
  rw [List.mem_filterMap] at hitem
  obtain ⟨row, _, heq⟩ := hitem
  split at heq
  · cases heq
  · split at heq
    · cases heq
    · cases heq
      rfl

theorem standaloneItems_not_hidden (rows : List WalkRow) (rootPath : List String)
    (consumed : List (List String)) :
    ∀ item ∈ standaloneItems rows rootPath consumed,
      ∀ fn ∈ item.fileNames, pyStartsWith fn "." = false := by
  intro item hitem fn hfn
  unfold standaloneItems at hitem
  rw [List.mem_flatMap] at hitem
  obtain ⟨row, _, hmem⟩ := hitem
  rw [List.mem_filterMap] at hmem
  obtain ⟨fn', _, heq⟩ := hmem
  split at heq
  · cases heq
  · split at heq
    · cases heq
    · split at heq
      · cases heq
      · cases heq
        rename_i hhid _ _
        rw [Bool.not_eq_true] at hhid
        rcases List.mem_singleton.mp hfn with rfl
        exact hhid

/-- The example library: one folder with one visible and one hidden audio
file. -/
def exampleLibrary : FsEntry :=
  .dir "root" [.dir "Book" [.file "a.m4a", .file ".b.m4a"]]

theorem scanItems_exampleLibrary :
    scanItems exampleLibrary =
      [{ relPath := ["Book"], name := "Book",
         candidateType := "multi_file_folder_book",
         fileNames := [".b.m4a", "a.m4a"], fileCount := 2, canSplit := true }] := by
  have hrows : walkTree [] exampleLibrary =
      [⟨["root"], [.dir "Book" [.file "a.m4a", .file ".b.m4a"]]⟩,
       ⟨["root", "Book"], [.file "a.m4a", .file ".b.m4a"]⟩] := by
    simp [exampleLibrary, walkTree, walkForest, FsEntry.isDir, FsEntry.name,
      pyStartsWith]
  simp only [scanItems]
  rw [hrows]
  decide

/-- C8 (amended): during a library scan, hidden directories are never
descended into (every path component below the walk root is non-hidden) and
hidden files are never listed as single-file books; but hidden audio files
inside a directory do count toward the two-or-more supported-audio-files test
and appear among the grouped folder book's files (`_audio_files_in_dir` has no
hidden-name filter). -/
theorem scanItems_hidden_handling :
    (∀ (pfx : List String) (root : FsEntry), ∀ row ∈ walkTree pfx root,
      ∃ suffix, row.path = pfx ++ [root.name] ++ suffix ∧
        ∀ c ∈ suffix, pyStartsWith c "." = false) ∧
    (∀ root : FsEntry, ∀ item ∈ scanItems root,
      item.candidateType = "single_file_book" →
      ∀ fn ∈ item.fileNames, pyStartsWith fn "." = false) ∧
    (∃ item ∈ scanItems exampleLibrary,
      item.candidateType = "multi_file_folder_book" ∧ ".b.m4a" ∈ item.fileNames) := by
  refine ⟨fun pfx root => walkTree_path_suffix pfx root, ?_, ?_⟩
  · intro root item hitem hsingle fn hfn
    simp only [scanItems] at hitem
    rw [List.mem_insertionSort] at hitem
    rcases List.mem_append.mp hitem with hg | hsA
    · have := groupedItems_type _ _ item hg
      rw [hsingle] at this
      exact absurd this (by decide)
    · exact standaloneItems_not_hidden _ _ _ item hsA fn hfn
  · rw [scanItems_exampleLibrary]
    exact ⟨_, List.mem_singleton.mpr rfl, rfl, by decide⟩

/-- C8 counterexample: a folder holding one visible audio file (`a.m4a`) and
one hidden audio file (`.b.m4a`) is classified as a grouped folder book with
`file_count = 2`, the hidden file included — even though it contains only one
non-hidden supported audio file.  Hidden files therefore do count toward the
two-or-more test, contrary to the claim. -/
theorem scanItems_hidden_counted_counterexample :
    (∃ item ∈ scanItems exampleLibrary,
      item.candidateType = "multi_file_folder_book" ∧
      ".b.m4a" ∈ item.fileNames ∧ item.fileCount = 2) ∧
    ((audioFilesInDir [.file "a.m4a", .file ".b.m4a"]).filter
      (fun e => !(pyStartsWith e.name "."))).length = 1 := by
  constructor
  · rw [scanItems_exampleLibrary]
    exact ⟨_, List.mem_singleton.mpr rfl, rfl, by decide, rfl⟩
  · decide

end Achew
